import Mathlib

set_option maxRecDepth 100000

/-!
Shallow embedding of the mariadbsqlindexer scanner (src/sql_indexer.c,
src/sql_indexer.h, src/sql_utils.c) and proofs about it.

Text is modelled as `List Char`; C `int`/`long` as `Int`; `size_t` as `Nat`.
Allocation (`malloc`/`realloc`/`strdup`) is modelled as always succeeding,
so the `error_occurred` paths that only fire on allocation failure are
unreachable in the model.
-/

namespace SqlIndexer

/-- C `isspace` in the default locale: space, \t, \n, vertical tab, form feed, \r. -/
def isSpaceC (c : Char) : Bool :=
  c == ' ' || c == '\t' || c == '\n' || c == Char.ofNat 11 || c == Char.ofNat 12 || c == '\r'

/-- C `tolower` restricted to ASCII, as used by `strncasecmp`/`strcasecmp`. -/
def toLowerC (c : Char) : Char :=
  if 65 ≤ c.toNat ∧ c.toNat ≤ 90 then Char.ofNat (c.toNat + 32) else c

/-- The backtick character (0x60), built by code to keep it out of the source text. -/
def backtick : Char := Char.ofNat 96

/-- Case-insensitive equality of two character lists (`strcasecmp`-style, both
    sides fully compared). -/
def ciEq (a b : List Char) : Bool :=
  a.map toLowerC == b.map toLowerC

/-- `CREATE_TABLE_KEYWORD`, lower-cased (both sides of `strncasecmp` are lowered). -/
def createTableKw : List Char := "create table".toList

-- --- Data model (sql_indexer.h) ---

/-- `ColumnInfo` from sql_indexer.h. -/
structure ColumnInfo where
  name : List Char
  type : List Char
  is_primary_key : Bool
  is_not_null : Bool
  is_auto_increment : Bool
  default_value : Option (List Char)
deriving DecidableEq, Repr

/-- `TableInfo` from sql_indexer.h (`column_capacity` omitted: it does not
    affect observable contents). -/
structure TableInfo where
  name : List Char
  columns : List ColumnInfo
  line_number : Int
  end_offset : Int
deriving DecidableEq, Repr

/-- `IndexEntry` from sql_indexer.h. `table_info` is `none` for non-table entries. -/
structure IndexEntry where
  type : List Char
  name : List Char
  line_number : Int
  table_info : Option TableInfo
deriving DecidableEq, Repr

/-- The entry sequence of `SqlIndex` (capacity omitted; the sha256 field is
    threaded separately where needed). -/
abbrev SqlIndex := List IndexEntry

/-- `ParserState` from sql_indexer.h. `process_chunk` reads `ctx->state` but no
    code in the repository ever writes any state other than the initial
    `STATE_CODE`. -/
inductive ParserState
  | code | slComment | mlComment | sQuote | dQuote | btIdent
deriving DecidableEq, Repr

def tableTypeStr : List Char := "TABLE".toList

/-- `e` is a TABLE entry with the given name (the test used by
    `add_table_entry`'s duplicate check and by the `table_idx` search). -/
def isTableNamed (name : List Char) (e : IndexEntry) : Bool :=
  e.type == tableTypeStr && e.name == name

/-- `add_table_entry`: if a TABLE entry of this name already exists the store
    is returned unchanged (the statement is being revisited), otherwise a new
    TABLE entry with an empty column list and `end_offset = -1` is appended. -/
def addTableEntry (idx : SqlIndex) (name : List Char) (line : Int) : SqlIndex :=
  if idx.any (isTableNamed name) then idx
  else idx ++ [⟨tableTypeStr, name, line, some ⟨name, [], line, -1⟩⟩]

/-- `add_index_entry`: plain append of a (possibly non-table) entry, no
    duplicate check, `table_info = NULL`. -/
def addIndexEntry (idx : SqlIndex) (type name : List Char) (line : Int) : SqlIndex :=
  idx ++ [⟨type, name, line, none⟩]

/-- Index of the last TABLE entry with the given name (the downward `for` loop
    computing `table_idx` in `process_chunk`). -/
def lastTableIdx (idx : SqlIndex) (name : List Char) : Option Nat :=
  (idx.reverse.findIdx? (isTableNamed name)).map (fun j => idx.length - 1 - j)

/-- Update the `table_info` of entry `i` in place. In C the pointer is
    dereferenced unconditionally; an entry with a NULL `table_info` would be
    undefined behaviour there, here the update is a no-op on `none`. -/
def mapTableInfoAt (idx : SqlIndex) (i : Nat) (f : TableInfo → TableInfo) : SqlIndex :=
  match idx.get? i with
  | some e => idx.set i { e with table_info := e.table_info.map f }
  | none => idx

-- --- strtok and small string helpers ---

/-- One `strtok` call on the remaining buffer: skip leading delimiters; if
    nothing is left return `none`; otherwise return the token and the rest of
    the buffer after the single delimiter that terminated the token (strtok
    overwrites that delimiter and resumes after it). -/
def strtokStep (delims : List Char) (s : List Char) : Option (List Char × List Char) :=
  let s1 := s.dropWhile (fun c => delims.contains c)
  if s1.isEmpty then none
  else
    let tok := s1.takeWhile (fun c => !(delims.contains c))
    some (tok, (s1.drop tok.length).drop 1)

/-- Delimiter set `" \t\n\r"`. -/
def wsDelims : List Char := [' ', '\t', '\n', '\r']

/-- Delimiter set `" \t\n\r,"`. -/
def wsCommaDelims : List Char := [' ', '\t', '\n', '\r', ',']

/-- Delimiter set used for constraint column lists: comma, backtick, space. -/
def constraintDelims : List Char := [',', backtick, ' ']

/-- Net parenthesis count of a token (the `for` loops counting `(` and `)`). -/
def parenDelta (s : List Char) : Int :=
  s.foldl (fun d c => if c == '(' then d + 1 else if c == ')' then d - 1 else d) 0

/-- Relative index of the first comma at parenthesis depth 0 (the `scanner`
    loop of `parse_table_columns`); `none` if there is none. -/
def findTopComma : List Char → Int → Option Nat
  | [], _ => none
  | c :: cs, depth =>
    if c == '(' then (findTopComma cs (depth + 1)).map (· + 1)
    else if c == ')' then (findTopComma cs (depth - 1)).map (· + 1)
    else if c == ',' && depth == 0 then some 0
    else (findTopComma cs depth).map (· + 1)

/-- Strip trailing `isspace` characters (the backward `line_end` adjustment for
    the last definition; the `line_end > line_start` guard only matters when the
    fragment is all spaces, which cannot happen after the leading skip). -/
def dropTrailingSpaces (s : List Char) : List Char :=
  (s.reverse.dropWhile isSpaceC).reverse

-- --- parse_table_columns ---

/-- The attribute loop of `parse_table_columns`: repeated
    `strtok(NULL, " \t\n\r,")` recognizing NOT NULL, AUTO_INCREMENT,
    PRIMARY KEY and DEFAULT value. -/
def parseColAttrs : Nat → List Char → Bool → Bool → Bool → Option (List Char) →
    Bool × Bool × Bool × Option (List Char)
  | 0, _, pk, nn, ai, dv => (pk, nn, ai, dv)
  | fuel + 1, rest, pk, nn, ai, dv =>
    match strtokStep wsCommaDelims rest with
    | none => (pk, nn, ai, dv)
    | some (tok, rest1) =>
      if ciEq tok "NOT".toList then
        match strtokStep wsCommaDelims rest1 with
        | none => (pk, nn, ai, dv)
        | some (nxt, rest2) =>
          parseColAttrs fuel rest2 pk (nn || ciEq nxt "NULL".toList) ai dv
      else if ciEq tok "AUTO_INCREMENT".toList then
        parseColAttrs fuel rest1 pk nn true dv
      else if ciEq tok "PRIMARY".toList then
        match strtokStep wsCommaDelims rest1 with
        | none => (pk, nn, ai, dv)
        | some (nxt, rest2) =>
          parseColAttrs fuel rest2 (pk || ciEq nxt "KEY".toList) nn ai dv
      else if ciEq tok "DEFAULT".toList then
        match strtokStep wsCommaDelims rest1 with
        | none => (pk, nn, ai, none)
        | some (v, rest2) => parseColAttrs fuel rest2 pk nn ai (some v)
      else
        parseColAttrs fuel rest1 pk nn ai dv

/-- The type-continuation loop: while the parenthesis count of the type text so
    far is positive, append further `strtok(NULL, " \t\n\r,")` tokens
    (separated by a space, capped at 255 characters like the C buffer). -/
def typeCont : Nat → Int → List Char → List Char → List Char × List Char
  | 0, _, tb, rest => (tb, rest)
  | fuel + 1, depth, tb, rest =>
    if depth > 0 then
      match strtokStep wsCommaDelims rest with
      | none => (tb, rest)
      | some (tok, rest1) =>
        typeCont fuel (depth + parenDelta tok) ((tb ++ [' '] ++ tok).take 255) rest1
    else (tb, rest)

/-- Set `is_primary_key` on the first column with the given name (the inner
    `for` over `table_info->columns` with `break`). -/
def markPk (name : List Char) : List ColumnInfo → List ColumnInfo
  | [] => []
  | c :: cs =>
    if c.name == name then { c with is_primary_key := true } :: cs
    else c :: markPk name cs

/-- The token loop of the PRIMARY/UNIQUE constraint branch: tokens split on
    comma/backtick/space; for PRIMARY each named existing column is marked. -/
def markConstraintCols (isPrimary : Bool) : Nat → List Char → List ColumnInfo → List ColumnInfo
  | 0, _, cols => cols
  | fuel + 1, rest, cols =>
    match strtokStep constraintDelims rest with
    | none => cols
    | some (tok, rest1) =>
      markConstraintCols isPrimary fuel rest1
        (if isPrimary then markPk tok cols else cols)

/-- Relative index of the first occurrence of `c` (strchr), if any. -/
def findCharIdx (c : Char) (s : List Char) : Option Nat :=
  s.findIdx? (· == c)

/-- Relative index of the last occurrence of `c` (strrchr), if any. -/
def findLastCharIdx (c : Char) (s : List Char) : Option Nat :=
  (s.reverse.findIdx? (· == c)).map (fun j => s.length - 1 - j)

/-- The PRIMARY/UNIQUE table-level constraint branch: find `(` in the fragment,
    cut at the last `)`, and mark the listed columns (PRIMARY only). -/
def applyTableConstraint (isPrimary : Bool) (frag : List Char)
    (cols : List ColumnInfo) : List ColumnInfo :=
  match findCharIdx '(' frag with
  | none => cols
  | some i =>
    let colsPart := frag.drop i
    let colsPart2 :=
      match findLastCharIdx ')' colsPart with
      | some j => colsPart.take j
      | none => colsPart
    markConstraintCols isPrimary (colsPart2.length + 1) (colsPart2.drop 1) cols

/-- The column-definition branch: first token is the name (backtick-stripped),
    second token (plus parenthesis continuations) the type, then the attribute
    loop; the column is appended only when both name and type tokens exist. -/
def parseColumnDef (frag : List Char) (cols : List ColumnInfo) : List ColumnInfo :=
  match strtokStep wsDelims frag with
  | none => cols
  | some (tok1, rest1) =>
    let colName :=
      if tok1.head? == some backtick then (tok1.drop 1).takeWhile (fun c => c ≠ backtick)
      else tok1
    match strtokStep wsDelims rest1 with
    | none => cols
    | some (tok2, rest2) =>
      let tb0 := tok2.take 255
      let (typeBuf, rest3) := typeCont (rest2.length + 1) (parenDelta tb0) tb0 rest2
      let (pk, nn, ai, dv) := parseColAttrs (rest3.length + 1) rest3 false false false none
      cols ++ [⟨colName, typeBuf, pk, nn, ai, dv⟩]

/-- One fragment of the column list, dispatched on its first word. -/
def parseOneFragment (frag : List Char) (cols : List ColumnInfo) : List ColumnInfo :=
  match strtokStep wsDelims frag with
  | none => cols
  | some (w, _) =>
    if ciEq w "PRIMARY".toList then applyTableConstraint true frag cols
    else if ciEq w "UNIQUE".toList then applyTableConstraint false frag cols
    else if ciEq w "CONSTRAINT".toList || ciEq w "KEY".toList || ciEq w "FOREIGN".toList then cols
    else parseColumnDef frag cols

/-- The outer loop of `parse_table_columns` over the body text (the region from
    just after the opening `(` up to and including the closing `)`): skip
    spaces/commas, slice the next fragment at the first depth-0 comma (or, for
    the last fragment, up to the trailing non-space — which leaves the final
    `)` inside the fragment), process it, advance. Fragments are capped at
    2047 characters (the `def[2048]` buffer). -/
def parseTableColumnsAux : Nat → List Char → List ColumnInfo → List ColumnInfo
  | 0, _, cols => cols
  | fuel + 1, rest, cols =>
    let rest1 := rest.dropWhile (fun c => isSpaceC c || c == ',')
    if rest1.isEmpty then cols
    else
      let (fragFull, advance) :=
        match findTopComma rest1 0 with
        | some k => (rest1.take k, k + 1)
        | none =>
          let f := dropTrailingSpaces rest1
          (f, f.length + 1)
      let frag := fragFull.take 2047
      parseTableColumnsAux fuel (rest1.drop advance) (parseOneFragment frag cols)

/-- `parse_table_columns`, appending to the existing column list of the table. -/
def parseTableColumns (body : List Char) (cols : List ColumnInfo) : List ColumnInfo :=
  parseTableColumnsAux (body.length + 1) body cols

-- --- process_chunk ---

/-- `find_next_token`: index of the first non-space character, if any. -/
def findNextTokenRel (s : List Char) : Option Nat :=
  let i := (s.takeWhile isSpaceC).length
  if i < s.length then some i else none

/-- `get_token_length`: length of the maximal run without space, comma or `(`.
    (The C version relies on a terminating byte beyond the buffer; here the
    run is bounded by the buffer end, which the subsequent
    `token_start + token_len <= end` check makes equivalent.) -/
def getTokenLen (s : List Char) : Nat :=
  (s.takeWhile (fun c => !(isSpaceC c) && c ≠ ',' && c ≠ '(')).length

/-- `find_table_body_start`: index just after the first `(`, if any. -/
def findTableBodyStartRel (s : List Char) : Option Nat :=
  (s.findIdx? (· == '(')).map (· + 1)

/-- `find_table_body_end`: starting at depth `d` (called with 1), index just
    after the parenthesis that brings the depth to 0, if any. -/
def findBodyEnd : List Char → Int → Option Nat
  | [], _ => none
  | c :: cs, depth =>
    if c == '(' then (findBodyEnd cs (depth + 1)).map (· + 1)
    else if c == ')' then
      if depth == 1 then some 1 else (findBodyEnd cs (depth - 1)).map (· + 1)
    else (findBodyEnd cs depth).map (· + 1)

/-- Result of one `process_chunk` call: bytes consumed plus the context fields
    it mutates (`current_line`, `last_newline_offset`, the index). -/
structure ChunkResult where
  processed : Nat
  line : Int
  lastNL : Int
  index : SqlIndex
deriving DecidableEq, Repr

/-- One iteration of `process_chunk`'s `while` loop either leaves the loop
    with a result or continues at a new position with updated context. -/
inductive StepOut where
  | done : ChunkResult → StepOut
  | next : Nat → List Char → Int → Int → SqlIndex → StepOut
deriving DecidableEq, Repr

/-- One iteration of the scanning loop of `process_chunk`. `g` is
    `ctx->global_offset`, `st` is `ctx->state` (never anything but
    `STATE_CODE` in the program), `pos` is `ptr - chunk_start` and `rest` the
    buffer from `pos` on. The backtick strip uses `token_len - 2` as a natural
    (for a 1-character backtick token the C code would pass `SIZE_MAX` to
    memmove — undefined behaviour; the model yields []). -/
def chunkStep (g : Nat) (st : ParserState) (pos : Nat) (rest : List Char)
    (line lastNL : Int) (idx : SqlIndex) : StepOut :=
  match rest with
  | [] => .done ⟨pos, line, lastNL, idx⟩
  | c :: rest' =>
    let line1 := if c == '\n' then line + 1 else line
    let lastNL1 := if c == '\n' then ((g + pos : Nat) : Int) else lastNL
    if st == ParserState.code && decide (12 ≤ rest.length) &&
        ciEq (rest.take 12) createTableKw &&
        ((rest.drop 12).head?.elim true isSpaceC) then
      let after12 := rest.drop 12
      match findNextTokenRel after12 with
      | none => .next (pos + 12) after12 line1 lastNL1 idx
      | some i =>
        let tokenStart := after12.drop i
        let tokLen := getTokenLen tokenStart
        if tokLen == 0 then
          .next (pos + 12) after12 line1 lastNL1 idx
        else
          let rawName := tokenStart.take tokLen
          let name :=
            if rawName.head? == some backtick && rawName.getLast? == some backtick then
              (rawName.drop 1).take (tokLen - 2)
            else rawName
          let idx1 := addTableEntry idx name line1
          let afterName := tokenStart.drop tokLen
          let posAfterName := pos + 12 + i + tokLen
          match findTableBodyStartRel afterName with
          | some bs =>
            match lastTableIdx idx1 name with
            | none => .done ⟨pos, line1, lastNL1, idx1⟩
            | some tIdx =>
              let bodyRest := afterName.drop bs
              match findBodyEnd bodyRest 1 with
              | some be =>
                let endAbs := posAfterName + bs + be
                let body := bodyRest.take be
                let idx2 := mapTableInfoAt idx1 tIdx (fun info =>
                  { info with
                      end_offset := ((g + endAbs : Nat) : Int),
                      columns := parseTableColumns body info.columns })
                .next endAbs (bodyRest.drop be) line1 lastNL1 idx2
              | none => .done ⟨pos, line1, lastNL1, idx1⟩
          | none =>
            let idx2 := mapTableInfoAt idx1 (idx1.length - 1) (fun info =>
              { info with end_offset := ((g + posAfterName : Nat) : Int) })
            .next posAfterName afterName line1 lastNL1 idx2
    else
      .next (pos + 1) rest' line1 lastNL1 idx

/-- The index store carried by a step outcome (the store the context holds at
    that moment of the scan, whether the loop stops or continues). -/
def outIndex : StepOut → SqlIndex
  | .done r => r.index
  | .next _ _ _ _ idx => idx

/-- The scanning loop of `process_chunk`: iterate `chunkStep` (fuel-based so
    that it reduces definitionally; the callers supply sufficient fuel, since
    every iteration strictly advances the position). -/
def processChunkAux (g : Nat) (st : ParserState) :
    Nat → Nat → List Char → Int → Int → SqlIndex → ChunkResult
  | 0, pos, _, line, lastNL, idx => ⟨pos, line, lastNL, idx⟩
  | fuel + 1, pos, rest, line, lastNL, idx =>
    match chunkStep g st pos rest line lastNL idx with
    | .done r => r
    | .next pos1 rest1 line1 lastNL1 idx1 =>
      processChunkAux g st fuel pos1 rest1 line1 lastNL1 idx1

/-- `process_chunk` on a buffer. The fuel `buffer.length + 1` always suffices:
    every iteration either returns or strictly advances the position. -/
def processChunk (buffer : List Char) (g : Nat) (line lastNL : Int)
    (st : ParserState) (idx : SqlIndex) : ChunkResult :=
  processChunkAux g st (buffer.length + 1) 0 buffer line lastNL idx

/-- A single scan of a whole text held in one buffer, from a freshly
    initialized context (line 1, `last_newline_offset = -1`, `STATE_CODE`,
    empty index). -/
def scanBuffer (content : List Char) : SqlIndex :=
  (processChunk content 0 1 (-1) ParserState.code []).index

-- --- process_sql_file ---

/-- The read/process/shift loop of `process_sql_file`, reading `chunkSize`
    bytes at a time (the program uses `CHUNK_SIZE = 4096`). Returns `none` on
    fuel exhaustion; the wrapper supplies fuel sufficient for every
    terminating run, so `none` corresponds to the C loop not terminating
    (which happens when, at end of file, `process_chunk` repeatedly consumes
    nothing from a non-empty leftover buffer). -/
def processFileAux (content : List Char) (chunkSize : Nat) :
    Nat → List Char → List Char → Nat → Int → Int → SqlIndex → Option SqlIndex
  | 0, _, _, _, _, _, _ => none
  | fuel + 1, buffer, remaining, g, line, lastNL, idx =>
    let readBytes := remaining.take chunkSize
    if readBytes.isEmpty && buffer.isEmpty then some idx
    else
      let buffer1 := buffer ++ readBytes
      let remaining1 := remaining.drop chunkSize
      let r := processChunk buffer1 g line lastNL ParserState.code idx
      let buffer2 := buffer1.drop r.processed
      if readBytes.isEmpty && buffer2.isEmpty then some r.index
      else
        processFileAux content chunkSize fuel buffer2 remaining1 (g + r.processed)
          r.line r.lastNL r.index

/-- `process_sql_file` with a given read size: the full chunked scan of the
    file contents from a freshly initialized context. -/
def processSqlFile (content : List Char) (chunkSize : Nat) : Option SqlIndex :=
  processFileAux content chunkSize (2 * content.length + 3) [] content 0 1 (-1) []

-- --- Decimal formatting (fprintf %d / %ld) and scanning (sscanf %d / %ld) ---

def isDigitC (c : Char) : Bool := 48 ≤ c.toNat && c.toNat ≤ 57

/-- Decimal digits of a natural number, most significant first (fuel-based so
    that it reduces definitionally). -/
def natDigitsAux : Nat → Nat → List Char → List Char
  | 0, _, acc => acc
  | fuel + 1, n, acc =>
    let d := Char.ofNat (48 + n % 10)
    if n < 10 then d :: acc else natDigitsAux fuel (n / 10) (d :: acc)

def natDigits (n : Nat) : List Char := natDigitsAux (n + 1) n []

/-- `fprintf` rendering of a (signed) integer. -/
def intDigits (i : Int) : List Char :=
  if i < 0 then '-' :: natDigits i.natAbs else natDigits i.toNat

/-- Value of a digit string. -/
def digitsToNat (ds : List Char) : Nat :=
  ds.foldl (fun a c => a * 10 + (c.toNat - 48)) 0

/-- `sscanf` `%d`/`%ld`: skip whitespace, optional sign, then at least one
    digit, greedily; `none` if no digit follows. -/
def scanInt (s : List Char) : Option (Int × List Char) :=
  let s1 := s.dropWhile isSpaceC
  let neg := s1.head? == some '-'
  let s2 := if neg || (s1.head? == some '+') then s1.drop 1 else s1
  let ds := s2.takeWhile isDigitC
  if ds.isEmpty then none
  else some ((if neg then -1 else 1) * (digitsToNat ds : Int), s2.drop ds.length)

/-- `sscanf` `%N[^,]`: up to `N` characters different from a comma; fails when
    it matches nothing. -/
def scanFieldNoComma (n : Nat) (s : List Char) : Option (List Char × List Char) :=
  let tok := (s.takeWhile (fun c => c ≠ ',')).take n
  if tok.isEmpty then none else some (tok, s.drop tok.length)

/-- `sscanf` `%N[^\n]` on a line (which contains no newline): the whole rest
    of the line, capped at `N`; fails when the rest is empty. -/
def scanFieldNoNL (n : Nat) (s : List Char) : Option (List Char × List Char) :=
  if s.isEmpty then none else some (s.take n, s.drop n)

/-- A literal character in an `sscanf` format. -/
def scanLit (c : Char) (s : List Char) : Option (List Char) :=
  match s with
  | c2 :: rest => if c2 == c then some rest else none
  | [] => none

/-- Result of `sscanf(line_buffer, "%255[^,],%511[^,],%d,%ld", ...)`:
    the number of conversions performed and the values of the converted
    fields (later fields stay unassigned when an earlier directive fails). -/
structure MainScan where
  cnt : Nat
  type : Option (List Char) := none
  name : Option (List Char) := none
  line : Option Int := none
  off : Option Int := none
deriving DecidableEq, Repr

def parseMainLine (s : List Char) : MainScan :=
  match scanFieldNoComma 255 s with
  | none => { cnt := 0 }
  | some (ty, s1) =>
    match scanLit ',' s1 with
    | none => { cnt := 1, type := some ty }
    | some s2 =>
      match scanFieldNoComma 511 s2 with
      | none => { cnt := 1, type := some ty }
      | some (nm, s3) =>
        match scanLit ',' s3 with
        | none => { cnt := 2, type := some ty, name := some nm }
        | some s4 =>
          match scanInt s4 with
          | none => { cnt := 2, type := some ty, name := some nm }
          | some (ln, s5) =>
            match scanLit ',' s5 with
            | none => { cnt := 3, type := some ty, name := some nm, line := some ln }
            | some s6 =>
              match scanInt s6 with
              | none => { cnt := 3, type := some ty, name := some nm, line := some ln }
              | some (off, _) =>
                { cnt := 4, type := some ty, name := some nm, line := some ln,
                  off := some off }

/-- Result of `sscanf(line_buffer,
    "COLUMN,%255[^,],%255[^,],%255[^,],%d,%d,%d,%255[^\n]", ...)`. -/
structure ColScan where
  cnt : Nat
  table : Option (List Char) := none
  col : Option (List Char) := none
  ctype : Option (List Char) := none
  pk : Option Int := none
  nn : Option Int := none
  ai : Option Int := none
  dflt : Option (List Char) := none
deriving DecidableEq, Repr

def parseColumnLine (s : List Char) : ColScan :=
  -- the leading literal "COLUMN," was already checked by strncmp
  let s0 := s.drop 7
  match scanFieldNoComma 255 s0 with
  | none => { cnt := 0 }
  | some (tn, s1) =>
    match scanLit ',' s1 with
    | none => { cnt := 1, table := some tn }
    | some s2 =>
      match scanFieldNoComma 255 s2 with
      | none => { cnt := 1, table := some tn }
      | some (cn, s3) =>
        match scanLit ',' s3 with
        | none => { cnt := 2, table := some tn, col := some cn }
        | some s4 =>
          match scanFieldNoComma 255 s4 with
          | none => { cnt := 2, table := some tn, col := some cn }
          | some (ct, s5) =>
            match scanLit ',' s5 with
            | none => { cnt := 3, table := some tn, col := some cn, ctype := some ct }
            | some s6 =>
              match scanInt s6 with
              | none => { cnt := 3, table := some tn, col := some cn, ctype := some ct }
              | some (pk, s7) =>
                match scanLit ',' s7 with
                | none => { cnt := 4, table := some tn, col := some cn, ctype := some ct,
                            pk := some pk }
                | some s8 =>
                  match scanInt s8 with
                  | none => { cnt := 4, table := some tn, col := some cn, ctype := some ct,
                              pk := some pk }
                  | some (nn, s9) =>
                    match scanLit ',' s9 with
                    | none => { cnt := 5, table := some tn, col := some cn,
                                ctype := some ct, pk := some pk, nn := some nn }
                    | some s10 =>
                      match scanInt s10 with
                      | none => { cnt := 5, table := some tn, col := some cn,
                                  ctype := some ct, pk := some pk, nn := some nn }
                      | some (ai, s11) =>
                        match scanLit ',' s11 with
                        | none => { cnt := 6, table := some tn, col := some cn,
                                    ctype := some ct, pk := some pk, nn := some nn,
                                    ai := some ai }
                        | some s12 =>
                          match scanFieldNoNL 255 s12 with
                          | none => { cnt := 6, table := some tn, col := some cn,
                                      ctype := some ct, pk := some pk, nn := some nn,
                                      ai := some ai }
                          | some (dv, _) =>
                            { cnt := 7, table := some tn, col := some cn,
                              ctype := some ct, pk := some pk, nn := some nn,
                              ai := some ai, dflt := some dv }

-- --- write_index_to_file ---

/-- The `COLUMN,...` line written for one column of a table. -/
def writeColumnLine (tname : List Char) (c : ColumnInfo) : List Char :=
  "COLUMN,".toList ++ tname ++ [','] ++ c.name ++ [','] ++ c.type ++ [','] ++
    (if c.is_primary_key then ['1'] else ['0']) ++ [','] ++
    (if c.is_not_null then ['1'] else ['0']) ++ [','] ++
    (if c.is_auto_increment then ['1'] else ['0']) ++ [','] ++
    (c.default_value.getD [])

/-- The lines written for one index entry: a table entry (type TABLE with a
    `table_info`) gets `TYPE,NAME,LINE,END_OFFSET` plus one line per column;
    any other entry gets `TYPE,NAME,LINE`. -/
def writeEntryLines (e : IndexEntry) : List (List Char) :=
  if e.type == tableTypeStr then
    match e.table_info with
    | some ti =>
      (e.type ++ [','] ++ e.name ++ [','] ++ intDigits e.line_number ++ [','] ++
        intDigits ti.end_offset) :: ti.columns.map (writeColumnLine ti.name)
    | none => [e.type ++ [','] ++ e.name ++ [','] ++ intDigits e.line_number]
  else [e.type ++ [','] ++ e.name ++ [','] ++ intDigits e.line_number]

/-- All lines written by `write_index_to_file` (the optional `SHA256:` header,
    then the entry lines). -/
def writeIndexLines (idx : SqlIndex) (sha : Option (List Char)) : List (List Char) :=
  (match sha with
   | some h => ["SHA256:".toList ++ h]
   | none => []) ++ (idx.map writeEntryLines).flatten

/-- The byte stream produced by `write_index_to_file` (each line is terminated
    by a newline). -/
def writeIndexToFile (idx : SqlIndex) (sha : Option (List Char)) : List Char :=
  (writeIndexLines idx sha).foldr (fun l acc => l ++ '\n' :: acc) []

-- --- read_index_from_file ---

/-- The lines delivered by repeated `fgets`: maximal newline-free chunks, the
    terminating newline stripped; a trailing newline yields no extra line. -/
def splitLinesAux : Nat → List Char → List (List Char)
  | 0, _ => []
  | fuel + 1, s =>
    if s.isEmpty then []
    else
      let l := s.takeWhile (fun c => c ≠ '\n')
      l :: splitLinesAux fuel ((s.drop l.length).drop 1)

def splitLines (s : List Char) : List (List Char) :=
  splitLinesAux (s.length + 1) s

/-- The column built from a parsed COLUMN line. For `3 ≤ cnt < 6` the C code
    reads uninitialized `int`s for the flags (undefined behaviour); the model
    takes them as 0. The default is kept only when all 7 conversions succeeded
    (`vals_read >= 7 && default_val[0] != '\0'`; the 7th conversion never
    yields an empty string). -/
def mkColFromScan (cs : ColScan) : ColumnInfo :=
  { name := cs.col.getD []
    type := cs.ctype.getD []
    is_primary_key := decide (cs.pk.getD 0 ≠ 0)
    is_not_null := decide (cs.nn.getD 0 ≠ 0)
    is_auto_increment := decide (cs.ai.getD 0 ≠ 0)
    default_value := if 7 ≤ cs.cnt then cs.dflt else none }

/-- The entry-reading loop of `read_index_from_file`. `nameReg` models the
    `name_buffer` stack variable, which persists across lines and is updated
    whenever the main `sscanf` assigns at least two conversions; it starts out
    uninitialized, modelled as `none`, which compares unequal to every parsed
    table name (in C the comparison reads indeterminate bytes). A matching
    COLUMN line with no entry yet makes the C code index `entries[-1]`
    (undefined behaviour) — modelled as failure, like the explicit
    `table_info == NULL` fatal path. -/
def readLoop : List (List Char) → SqlIndex → Option (List Char) → Option SqlIndex
  | [], idx, _ => some idx
  | l :: ls, idx, nameReg =>
    let lb := l.take 1023
    if lb.take 7 == "COLUMN,".toList then
      let cs := parseColumnLine lb
      if 3 ≤ cs.cnt && nameReg.isSome && cs.table == nameReg then
        match idx.getLast? with
        | none => none
        | some e =>
          match e.table_info with
          | none => none
          | some ti =>
            readLoop ls
              (idx.set (idx.length - 1)
                { e with table_info := some { ti with columns := ti.columns ++ [mkColFromScan cs] } })
              nameReg
      else readLoop ls idx nameReg
    else
      let ms := parseMainLine lb
      let nameReg1 := if 2 ≤ ms.cnt then ms.name else nameReg
      if 3 ≤ ms.cnt then
        if ms.type == some tableTypeStr then
          let idx1 := addTableEntry idx (ms.name.getD []) (ms.line.getD 0)
          let idx2 :=
            if ms.cnt == 4 && !idx1.isEmpty then
              mapTableInfoAt idx1 (idx1.length - 1)
                (fun ti => { ti with end_offset := ms.off.getD 0 })
            else idx1
          readLoop ls idx2 nameReg1
        else
          readLoop ls (addIndexEntry idx (ms.type.getD []) (ms.name.getD []) (ms.line.getD 0))
            nameReg1
      else readLoop ls idx nameReg1

/-- `read_index_from_file` on a byte stream: the first line is consumed as the
    digest header when it starts with `SHA256:`, otherwise the file is rewound
    and every line is processed as an entry line. Returns the reconstructed
    entry sequence (`none` on the fatal paths). -/
def readIndexFromFile (content : List Char) : Option SqlIndex :=
  match splitLines content with
  | [] => some []
  | l0 :: rest =>
    if (l0.take 1023).take 7 == "SHA256:".toList then readLoop rest [] none
    else readLoop (l0 :: rest) [] none

-- --- get_first_row_sample ---

def singleQuote : Char := Char.ofNat 39

/-- Index of the first occurrence of `pat` as a contiguous sublist (strstr). -/
def findSubstrIdx (pat : List Char) : List Char → Option Nat
  | [] => if pat.isEmpty then some 0 else none
  | c :: rest =>
    if (c :: rest).take pat.length == pat then some 0
    else (findSubstrIdx pat rest).map (· + 1)

/-- Relative index of the first occurrence of `c` (strchr), if any. -/
def findNL (s : List Char) : Option Nat := s.findIdx? (· == '\n')

/-- The leading whitespace/comment skip of the search loop in
    `get_first_row_sample`: spaces are stepped over one by one, `--` skips to
    just after the next newline (or the chunk end), a block comment skips to
    just after the closing marker (or the chunk end); a lone `-` or `/` is
    stepped over like a space. -/
def skipWsComments : Nat → List Char → List Char
  | 0, s => s
  | fuel + 1, s =>
    match s with
    | [] => []
    | c :: rest =>
      if isSpaceC c || c == '-' || c == '/' then
        if c == '-' && rest.head? == some '-' then
          match findNL s with
          | some i => skipWsComments fuel (s.drop (i + 1))
          | none => []
        else if c == '/' && rest.head? == some '*' then
          match findSubstrIdx "*/".toList (s.drop 2) with
          | some i => skipWsComments fuel (s.drop (2 + i + 2))
          | none => []
        else skipWsComments fuel rest
      else s

/-- Try to match `INSERT INTO [backtick]table[backtick] VALUES (` at the start
    of `s` (keywords case-insensitive, table name exact); on success return
    the suffix starting at the first character of the row data. -/
def matchInsertAt (table : List Char) (s : List Char) : Option (List Char) :=
  if ciEq (s.take 11) "INSERT INTO".toList then
    let afterIns := (s.drop 11).dropWhile isSpaceC
    let core : Option (List Char) :=
      if afterIns.head? == some backtick &&
          (afterIns.drop 1).take table.length == table &&
          (afterIns.drop (1 + table.length)).head? == some backtick then
        some (afterIns.drop (1 + table.length + 1))
      else if afterIns.take table.length == table then
        some (afterIns.drop table.length)
      else none
    match core with
    | none => none
    | some afterTable0 =>
      let afterTable := afterTable0.dropWhile isSpaceC
      if ciEq (afterTable.take 6) "VALUES".toList then
        let afterVals := (afterTable.drop 6).dropWhile isSpaceC
        if afterVals.head? == some '(' then some (afterVals.drop 1) else none
      else none
  else none

/-- The per-chunk search loop: skip whitespace/comments, try the INSERT
    patterns, otherwise jump past the next newline; `none` when the chunk is
    exhausted. -/
def searchChunk (table : List Char) : Nat → List Char → Option (List Char)
  | 0, _ => none
  | fuel + 1, s =>
    let s1 := skipWsComments (s.length + 1) s
    if s1.isEmpty then none
    else
      match matchInsertAt table s1 with
      | some row => some row
      | none =>
        match findNL s1 with
        | some i => searchChunk table fuel (s1.drop (i + 1))
        | none => none

/-- The outer `fread` loop: 4096-byte chunks are searched one at a time; the
    returned suffix is confined to the chunk in which the match was found. -/
def sampleChunks (table : List Char) : Nat → List Char → Option (List Char)
  | 0, _ => none
  | fuel + 1, data =>
    if data.isEmpty then none
    else
      let chunk := data.take 4096
      match searchChunk table (chunk.length + 1) chunk with
      | some row => some row
      | none => sampleChunks table fuel (data.drop 4096)

/-- The row-delimiting scan: from the character after the opening parenthesis,
    track string state (entered at an unescaped quote/double-quote/backtick,
    left at an unescaped matching quote; escape = preceding byte is a
    backslash) and parenthesis depth outside strings; return the relative
    index of the parenthesis that closes the row, if it lies in the chunk. -/
def findRowEndAux : List Char → Int → Bool → Char → Option Char → Nat → Option Nat
  | [], _, _, _, _, _ => none
  | c :: rest, depth, inStr, quote, prev, pos =>
    let escaped := prev == some '\\'
    if !inStr && (c == singleQuote || c == '"' || c == backtick) && !escaped then
      findRowEndAux rest depth true c (some c) (pos + 1)
    else if inStr && c == quote && !escaped then
      findRowEndAux rest depth false quote (some c) (pos + 1)
    else if !inStr then
      if c == '(' then findRowEndAux rest (depth + 1) inStr quote (some c) (pos + 1)
      else if c == ')' then
        if depth == 1 then some pos
        else findRowEndAux rest (depth - 1) inStr quote (some c) (pos + 1)
      else findRowEndAux rest depth inStr quote (some c) (pos + 1)
    else findRowEndAux rest depth inStr quote (some c) (pos + 1)

def binaryMarker : List Char := "_binary ".toList

/-- The search-and-delimit part of `get_first_row_sample`: the text of the
    first matching row, if one is found and delimited. -/
def locateTuple (content : List Char) (startOffset : Int) (table : List Char) :
    Option (List Char) :=
  if startOffset < 0 then none
  else
    let data := content.drop startOffset.toNat
    match sampleChunks table (data.length / 4096 + 2) data with
    | none => none
    | some row =>
      match findRowEndAux row 1 false (Char.ofNat 0) none 0 with
      | none => none
      | some rowLen => some (row.take rowLen)

/-- `get_first_row_sample` on a file content (file-open and seek failures are
    outside the model; a negative offset is rejected as in C). -/
def getFirstRowSample (content : List Char) (startOffset : Int) (table : List Char) :
    Option (List Char) :=
  match locateTuple content startOffset table with
  | none => none
  | some rowTxt =>
    if rowTxt.take 8 == binaryMarker then some "BLOB".toList
    else some (rowTxt.take 300)

-- --- Concrete inputs used by the claims ---

/-- The DDL statement of the spec's extractor example. -/
def usersDDL : List Char :=
  ("CREATE TABLE users (id INT NOT NULL AUTO_INCREMENT PRIMARY KEY, " ++
   "name VARCHAR(50) NOT NULL, bio TEXT DEFAULT NULL);").toList

/-- The store the scanner actually produces for `usersDDL`. -/
def usersEntry : IndexEntry :=
  ⟨tableTypeStr, "users".toList, 1,
    some ⟨"users".toList,
      [⟨"id".toList, "INT".toList, true, true, true, none⟩,
       ⟨"name".toList, "VARCHAR(50)".toList, false, true, false, none⟩,
       ⟨"bio".toList, "TEXT".toList, false, false, false, some "NULL)".toList⟩],
      1, 113⟩⟩

/-- A minimal complete DDL statement. -/
def tinyDDL : List Char := "CREATE TABLE t (a INT);".toList

/-- The entry the scanner produces for `tinyDDL` in a single buffer. -/
def tinyEntry : IndexEntry :=
  ⟨tableTypeStr, "t".toList, 1,
    some ⟨"t".toList, [⟨"a".toList, "INT)".toList, false, false, false, none⟩], 1, 22⟩⟩

/-- A `CREATE TABLE` with a name but no `(` anywhere after it. -/
def noParenDDL : List Char := "CREATE TABLE t x".toList

/-- The entry the scanner produces for `noParenDDL`: finalized just past the
    name. -/
def noParenEntry : IndexEntry :=
  ⟨tableTypeStr, "t".toList, 1, some ⟨"t".toList, [], 1, 14⟩⟩

-- --- Predicates for the invariants and the round-trip ---

/-- The names of the TABLE entries of a store, in order. -/
def tableNames (idx : SqlIndex) : List (List Char) :=
  idx.filterMap (fun e => if e.type == tableTypeStr then some e.name else none)

/-- A text field that survives the CSV-style index format: nonempty, at most
    255 characters, and free of commas and newlines. -/
def wfField (s : List Char) : Prop :=
  s ≠ [] ∧ s.length ≤ 255 ∧ ∀ c ∈ s, c ≠ ',' ∧ c ≠ '\n'

instance (s : List Char) : Decidable (wfField s) :=
  inferInstanceAs (Decidable (s ≠ [] ∧ s.length ≤ 255 ∧ ∀ c ∈ s, c ≠ ',' ∧ c ≠ '\n'))

/-- A default value that survives the format: when present it is nonempty, at
    most 255 characters and newline-free. Commas are fine — the default is
    the last field of its line and is read with a scanset that runs to the
    end of the line. -/
def wfDefault : Option (List Char) → Prop
  | some d => d ≠ [] ∧ d.length ≤ 255 ∧ ∀ ch ∈ d, ch ≠ '\n'
  | none => True

instance : (o : Option (List Char)) → Decidable (wfDefault o)
  | none => .isTrue trivial
  | some d =>
    inferInstanceAs (Decidable (d ≠ [] ∧ d.length ≤ 255 ∧ ∀ ch ∈ d, ch ≠ '\n'))

/-- A column whose serialized line parses back to itself. -/
def wfColumn (c : ColumnInfo) : Prop :=
  wfField c.name ∧ wfField c.type ∧ wfDefault c.default_value

instance (c : ColumnInfo) : Decidable (wfColumn c) :=
  inferInstanceAs (Decidable (_ ∧ _ ∧ _))

/-- The table-structure side conditions of an entry: the type is `TABLE`
    exactly when a `table_info` is present, whose redundant name and line
    agree with the entry and whose columns are well-formed. -/
def wfInfo (ty nm : List Char) (ln : Int) : Option TableInfo → Prop
  | some ti => ty = tableTypeStr ∧ ti.name = nm ∧ ti.line_number = ln ∧
      ∀ c ∈ ti.columns, wfColumn c
  | none => ty ≠ tableTypeStr

instance (ty nm : List Char) (ln : Int) :
    (o : Option TableInfo) → Decidable (wfInfo ty nm ln o)
  | none => inferInstanceAs (Decidable (ty ≠ tableTypeStr))
  | some ti => inferInstanceAs (Decidable (_ ∧ _ ∧ _ ∧ _))

/-- An entry that round-trips: plain name/type fields, consistent table
    structure, the type is not the literal `COLUMN` (such a line would be
    taken for a column line), and no written line overflows the reader's
    1023-character line buffer. -/
def wfEntry (e : IndexEntry) : Prop :=
  wfField e.name ∧ wfField e.type ∧ e.type ≠ "COLUMN".toList ∧
  (∀ l ∈ writeEntryLines e, l.length ≤ 1023) ∧
  wfInfo e.type e.name e.line_number e.table_info

instance (e : IndexEntry) : Decidable (wfEntry e) :=
  inferInstanceAs (Decidable (_ ∧ _ ∧ _ ∧ _ ∧ _))

/-- A store that round-trips: well-formed entries with pairwise-distinct
    TABLE names. -/
def wfStore (s : SqlIndex) : Prop :=
  (∀ e ∈ s, wfEntry e) ∧ (tableNames s).Nodup

instance (s : SqlIndex) : Decidable (wfStore s) :=
  inferInstanceAs (Decidable (_ ∧ _))

/-- A well-formed example store: a zero-column table, a table whose second
    column has a DEFAULT containing a comma inside a quoted string, and a
    non-table entry. -/
def rtStore : SqlIndex :=
  [⟨tableTypeStr, "empty_t".toList, 2, some ⟨"empty_t".toList, [], 2, 40⟩⟩,
   ⟨tableTypeStr, "users".toList, 5,
     some ⟨"users".toList,
       [⟨"id".toList, "INT".toList, true, true, true, none⟩,
        ⟨"note".toList, "TEXT".toList, false, false, false,
          some ([singleQuote] ++ "a,b".toList ++ [singleQuote])⟩],
       5, 99⟩⟩,
   ⟨"INDEX".toList, "idx1".toList, 9, none⟩]

/-- A store the persistence codec does not round-trip: the column type
    `ENUM(1,2)` contains a comma (the column parser does produce such types,
    e.g. from `ENUM('M','F')`), which the reader's `%255[^,]` scanset cuts
    short. -/
def badStore : SqlIndex :=
  [⟨tableTypeStr, "t".toList, 1,
    some ⟨"t".toList, [⟨"c".toList, "ENUM(1,2)".toList, false, false, false, none⟩], 1, 20⟩⟩]

/-- A tuple text longer than 300 characters, for the truncation bound. -/
def longInsert : List Char :=
  "INSERT INTO t VALUES (".toList ++ List.replicate 310 'x' ++ ");".toList

end SqlIndexer

namespace SqlIndexer

-- ===================================================================
-- Claims
-- ===================================================================

/-- C1. The claim says any read-buffer size produces the same Index Store as a
single whole-text buffer. With 1-byte reads the scanner never sees 12
contiguous keyword bytes (`process_chunk` consumes every byte it scans, never
holding back a partial keyword at the buffer end), so the store comes out
empty, while the 4096-byte and single-buffer scans index table `t`.  -/
theorem claim_C1_chunk_boundary_loss :
    processSqlFile tinyDDL 1 = some [] ∧
    processSqlFile tinyDDL 4096 = some [tinyEntry] ∧
    scanBuffer tinyDDL = [tinyEntry] ∧
    processSqlFile tinyDDL 1 ≠ processSqlFile tinyDDL 4096 := by decide

/-- C2. The claim says a `CREATE TABLE` inside a line comment produces no
entry. The program never leaves `STATE_CODE` (no code writes `ctx->state`), so
the keyword inside `-- ...` is matched and table `t` is indexed. -/
theorem claim_C2_comment_keyword_indexed :
    ("-- CREATE TABLE t (a INT);\n".toList.take 2 = "--".toList) ∧
    (scanBuffer "-- CREATE TABLE t (a INT);\n".toList).map IndexEntry.name = ["t".toList] ∧
    scanBuffer "-- CREATE TABLE t (a INT);\n".toList ≠ [] := by decide

/-- C3. The claim says a keyword occurrence must be preceded by start of file,
whitespace or one of `; ( / *`. `process_chunk` never inspects the preceding
character (`is_keyword_boundary` is never called), so `XCREATE TABLE t (...)`
indexes table `t`. -/
theorem claim_C3_boundary_unchecked :
    ("XCREATE TABLE t (a INT);".toList.head? = some 'X') ∧
    (scanBuffer "XCREATE TABLE t (a INT);".toList).map IndexEntry.name = ["t".toList] ∧
    scanBuffer "XCREATE TABLE t (a INT);".toList ≠ [] := by decide

/-- C5. On the users DDL the extractor yields one entry `users` with the three
columns in order; `id` and `name` match the claim exactly, but the recorded
default of `bio` is `NULL)` — the scanner's last fragment includes the closing
parenthesis of the column list — not `NULL` as claimed. -/
theorem claim_C5_users_eval :
    scanBuffer usersDDL = [usersEntry] ∧
    (usersEntry.table_info.map (fun ti => ti.columns.map ColumnInfo.default_value)) =
      some [none, none, some "NULL)".toList] ∧
    some "NULL)".toList ≠ some "NULL".toList := by decide

/-- C4, counterexample. The round-trip fails on a non-empty store whose only
table has a column of type `ENUM(1,2)`: the reader's comma-delimited scanset
truncates the type (and misreads the following flag), so deserializing the
serialized store does not return the store. -/
theorem claim_C4_counterexample :
    readIndexFromFile (writeIndexToFile badStore none) ≠ some badStore ∧ badStore ≠ [] := by
  decide

/-- C6. The returned sample is exactly the claim's mapping of the located
tuple: the `BLOB` placeholder when the tuple text starts with the
`_binary ` marker, otherwise the tuple text truncated to 300 characters; and
`none` when no tuple is found and delimited. Checked also on concrete inputs
for each branch (marker, >300-character truncation, end of file without a
match). -/
theorem claim_C6_sample_spec :
    (∀ (content : List Char) (off : Int) (tbl : List Char),
        getFirstRowSample content off tbl =
          (locateTuple content off tbl).map
            (fun t => if t.take 8 == binaryMarker then "BLOB".toList else t.take 300)) ∧
    getFirstRowSample "INSERT INTO t VALUES (_binary abc);".toList 0 "t".toList =
      some "BLOB".toList ∧
    getFirstRowSample longInsert 0 "t".toList = some (List.replicate 300 'x') ∧
    getFirstRowSample "abc".toList 0 "t".toList = none := by
  refine ⟨fun content off tbl => ?_, by decide, by decide, by decide⟩
  cases h : locateTuple content off tbl with
  | none => simp [getFirstRowSample, h]
  | some t =>
    simp only [getFirstRowSample, h, Option.map]
    split <;> rfl

/-- C7, counterexample. On `CREATE TABLE t x` (no parenthesis anywhere) the
scanner sets `end_offset` to 14 — the offset just past the table name — even
though the column-list body never appears, let alone balances: `end_offset`
neither keeps the −1 sentinel until the body is balanced nor receives the
offset after a closing parenthesis. -/
theorem claim_C7_counterexample :
    scanBuffer noParenDDL = [noParenEntry] ∧
    noParenEntry.table_info.map TableInfo.end_offset = some 14 ∧
    ((14 : Int) ≠ -1) ∧ ')' ∉ noParenDDL := by decide

/-- C8, counterexample. The claim says that with a valid match and name but no
`(` in the rest of the buffer the chunk processor returns early, consuming
only the bytes before the construct. Instead it consumes the whole buffer
(16 of 16 bytes) and finalizes the entry with `end_offset` just past the
name. -/
theorem claim_C8_counterexample :
    (processChunk noParenDDL 0 1 (-1) ParserState.code []).processed = noParenDDL.length ∧
    noParenDDL.length = 16 ∧ '(' ∉ noParenDDL ∧
    (processChunk noParenDDL 0 1 (-1) ParserState.code []).index = [noParenEntry] := by
  decide

/-- C9, counterexample. A `COLUMN` line before any table line is not fatal:
the reader compares its table name against the (uninitialized, here: matching
nothing) last-entry name buffer, warns, skips the line, and succeeds with an
empty store. -/
theorem claim_C9_counterexample :
    readIndexFromFile "COLUMN,t,c,INT,0,0,0,x\n".toList = some [] ∧
    (some ([] : SqlIndex) ≠ (none : Option SqlIndex)) := by decide

-- --- Helper lemmas about the scanner ---

theorem findBodyEnd_none (s : List Char) (h : ')' ∉ s) : ∀ d, findBodyEnd s d = none := by
  induction s with
  | nil => intro d; rfl
  | cons c cs ih =>
    intro d
    have hc : ¬(c = ')') := fun hh => h (by simp [hh])
    have hcs : ')' ∉ cs := fun hm => h (by simp [hm])
    by_cases h1 : c = '('
    · subst h1; simp [findBodyEnd, ih hcs]
    · simp [findBodyEnd, h1, hc, ih hcs]

theorem addTableEntry_fresh (idx : SqlIndex) (name : List Char) (line : Int)
    (h : idx.any (isTableNamed name) = false) :
    addTableEntry idx name line =
      idx ++ [⟨tableTypeStr, name, line, some ⟨name, [], line, -1⟩⟩] := by
  simp [addTableEntry, h]

theorem addTableEntry_dup (idx : SqlIndex) (name : List Char) (line : Int)
    (h : idx.any (isTableNamed name) = true) :
    addTableEntry idx name line = idx := by
  simp [addTableEntry, h]

/-- On a buffer that starts with a complete `CREATE TABLE t (` whose body
    never closes, one loop iteration stops the scan with zero bytes consumed
    and the new entry still at the −1 sentinel. -/
theorem chunkStep_open_paren (body : List Char) (hnp : ')' ∉ body) :
    chunkStep 0 ParserState.code 0 ("CREATE TABLE t (".toList ++ body) 1 (-1) [] =
      .done ⟨0, 1, -1, [⟨tableTypeStr, "t".toList, 1, some ⟨"t".toList, [], 1, -1⟩⟩]⟩ := by
  have hlit : "CREATE TABLE t (".toList =
      'C' :: 'R' :: 'E' :: 'A' :: 'T' :: 'E' :: ' ' :: 'T' :: 'A' :: 'B' :: 'L' :: 'E' ::
      ' ' :: 't' :: ' ' :: '(' :: [] := rfl
  rw [hlit]
  simp only [List.cons_append, List.nil_append]
  simp only [chunkStep, List.take_succ_cons, List.drop_succ_cons, List.length_cons,
    List.take_zero, List.drop_zero]
  simp +decide [findNextTokenRel, getTokenLen, findTableBodyStartRel, List.findIdx?,
    addTableEntry, isTableNamed, lastTableIdx, findBodyEnd_none body hnp,
    List.takeWhile_cons, List.findIdx?_cons]

/-- C7, amended. `end_offset` starts at the −1 sentinel when the entry is
created, and when the balanced body is found in the buffer it receives the
offset just past the closing parenthesis (here 22, the position after the `)`
at offset 21); but it is not guarded beyond that: when no `(` follows in the
buffer the scanner assigns the offset just past the table name instead, so
the sentinel does not survive until a body is balanced, nor is the assigned
value always the offset after a `)`. -/
theorem claim_C7_end_offset_behavior :
    (∀ (idx : SqlIndex) (name : List Char) (line : Int),
        idx.any (isTableNamed name) = false →
        (addTableEntry idx name line).getLast? =
          some ⟨tableTypeStr, name, line, some ⟨name, [], line, -1⟩⟩) ∧
    (scanBuffer tinyDDL = [tinyEntry] ∧
      tinyEntry.table_info.map TableInfo.end_offset = some 22 ∧
      tinyDDL.get? 21 = some ')' ∧ tinyDDL.length = 23) ∧
    (scanBuffer noParenDDL = [noParenEntry] ∧
      noParenEntry.table_info.map TableInfo.end_offset = some 14 ∧ ')' ∉ noParenDDL) := by
  refine ⟨fun idx name line h => ?_, by decide, by decide⟩
  rw [addTableEntry_fresh idx name line h]
  exact List.getLast?_concat idx

/-- This claim's theorem has hypotheses; instantiation at a concrete fresh
store. -/
theorem claim_C7_end_offset_behavior_witness :
    (addTableEntry [⟨"INDEX".toList, "i".toList, 2, none⟩] "t".toList 5).getLast? =
      some ⟨tableTypeStr, "t".toList, 5, some ⟨"t".toList, [], 5, -1⟩⟩ :=
  claim_C7_end_offset_behavior.1 [⟨"INDEX".toList, "i".toList, 2, none⟩] "t".toList 5
    (by decide)

/-- C8, amended. When the opening `(` is present but the matching `)` is not
in the buffer, the chunk processor does return early with only the bytes
before the construct consumed (here 0) and the entry unfinalized at the −1
sentinel, so the caller refills and retries; but when the `(` itself is
absent from the buffer remainder, it instead finalizes `end_offset` just past
the table name and consumes the construct (16 of 16 bytes). -/
theorem claim_C8_split_body_retry :
    (∀ body : List Char, ')' ∉ body →
        processChunk ("CREATE TABLE t (".toList ++ body) 0 1 (-1) ParserState.code [] =
          ⟨0, 1, -1, [⟨tableTypeStr, "t".toList, 1, some ⟨"t".toList, [], 1, -1⟩⟩]⟩) ∧
    ((processChunk noParenDDL 0 1 (-1) ParserState.code []).processed = 16 ∧
      (processChunk noParenDDL 0 1 (-1) ParserState.code []).index = [noParenEntry]) := by
  refine ⟨fun body hnp => ?_, by decide⟩
  have hfuel : ("CREATE TABLE t (".toList ++ body).length + 1 = body.length + 17 := by
    simp [List.length_append]
  rw [processChunk, hfuel, processChunkAux, chunkStep_open_paren body hnp]

/-- This claim's theorem has hypotheses; instantiation at a concrete split
statement. -/
theorem claim_C8_split_body_retry_witness :
    processChunk ("CREATE TABLE t (".toList ++ "a INT".toList) 0 1 (-1) ParserState.code [] =
      ⟨0, 1, -1, [⟨tableTypeStr, "t".toList, 1, some ⟨"t".toList, [], 1, -1⟩⟩]⟩ :=
  claim_C8_split_body_retry.1 "a INT".toList (by decide)

-- --- Uniqueness of TABLE names (C10) ---

theorem mem_tableNames (idx : SqlIndex) (n : List Char) :
    n ∈ tableNames idx ↔ ∃ e ∈ idx, e.type = tableTypeStr ∧ e.name = n := by
  simp only [tableNames, List.mem_filterMap]
  constructor
  · rintro ⟨e, he, hf⟩
    by_cases ht : e.type == tableTypeStr
    · simp only [ht, if_true, Option.some.injEq] at hf
      exact ⟨e, he, by simpa using ht, hf⟩
    · simp [ht] at hf
  · rintro ⟨e, he, ht, hn⟩
    exact ⟨e, he, by simp [ht, hn]⟩

theorem any_isTableNamed (idx : SqlIndex) (n : List Char) :
    idx.any (isTableNamed n) = true ↔ n ∈ tableNames idx := by
  rw [mem_tableNames]
  simp [List.any_eq_true, isTableNamed, Bool.and_eq_true, beq_iff_eq]

theorem tableNames_append (a b : SqlIndex) :
    tableNames (a ++ b) = tableNames a ++ tableNames b := by
  simp [tableNames]

theorem tableNames_cons (x : IndexEntry) (l : SqlIndex) :
    tableNames (x :: l) =
      (if x.type == tableTypeStr then [x.name] else []) ++ tableNames l := by
  by_cases h : x.type = tableTypeStr <;> simp [tableNames, List.filterMap_cons, h]

theorem tableNames_addTableEntry_nodup (idx : SqlIndex) (name : List Char) (line : Int)
    (h : (tableNames idx).Nodup) : (tableNames (addTableEntry idx name line)).Nodup := by
  by_cases hdup : idx.any (isTableNamed name) = true
  · rw [addTableEntry_dup idx name line hdup]; exact h
  · rw [addTableEntry_fresh idx name line (by simpa using hdup)]
    rw [tableNames_append]
    have hnm : name ∉ tableNames idx := by
      rw [← any_isTableNamed]; simpa using hdup
    have hsingle :
        tableNames [(⟨tableTypeStr, name, line, some ⟨name, [], line, -1⟩⟩ : IndexEntry)] =
          [name] := by simp [tableNames]
    rw [hsingle]
    simp [List.nodup_append, h, hnm]

theorem tableNames_set (idx : SqlIndex) (i : Nat) (e e' : IndexEntry)
    (hget : idx.get? i = some e) (ht : e'.type = e.type) (hn : e'.name = e.name) :
    tableNames (idx.set i e') = tableNames idx := by
  induction idx generalizing i with
  | nil => simp at hget
  | cons x xs ih =>
    cases i with
    | zero =>
      simp only [List.get?] at hget
      cases hget
      rw [List.set_cons_zero, tableNames_cons, tableNames_cons, ht, hn]
    | succ j =>
      simp only [List.get?] at hget
      rw [List.set_cons_succ, tableNames_cons, tableNames_cons, ih j hget]

theorem tableNames_mapTableInfoAt (idx : SqlIndex) (i : Nat) (f : TableInfo → TableInfo) :
    tableNames (mapTableInfoAt idx i f) = tableNames idx := by
  unfold mapTableInfoAt
  cases hget : idx.get? i with
  | none => rfl
  | some e => exact tableNames_set idx i e _ hget rfl rfl

/-- One loop iteration of the scanner preserves uniqueness of the TABLE names
    of the store — whether the iteration stops the scan or continues. -/
theorem chunkStep_nodup (g : Nat) (st : ParserState) (pos : Nat) (rest : List Char)
    (line lastNL : Int) (idx : SqlIndex) (h : (tableNames idx).Nodup) :
    (tableNames (outIndex (chunkStep g st pos rest line lastNL idx))).Nodup := by
  unfold chunkStep
  cases rest with
  | nil => simpa [outIndex] using h
  | cons c rest' =>
    dsimp only
    repeat' split
    all_goals
      simp_all [outIndex, tableNames_mapTableInfoAt, tableNames_addTableEntry_nodup]

theorem processChunkAux_nodup (g : Nat) (st : ParserState) :
    ∀ (fuel pos : Nat) (rest : List Char) (line lastNL : Int) (idx : SqlIndex),
      (tableNames idx).Nodup →
      (tableNames (processChunkAux g st fuel pos rest line lastNL idx).index).Nodup := by
  intro fuel
  induction fuel with
  | zero => intro pos rest line lastNL idx h; simpa [processChunkAux] using h
  | succ n ih =>
    intro pos rest line lastNL idx h
    have hstep := chunkStep_nodup g st pos rest line lastNL idx h
    rw [processChunkAux]
    cases hc : chunkStep g st pos rest line lastNL idx with
    | done r => rw [hc] at hstep; simpa [outIndex] using hstep
    | next p1 r1 l1 n1 i1 =>
      rw [hc] at hstep
      exact ih p1 r1 l1 n1 i1 (by simpa [outIndex] using hstep)

theorem processChunk_nodup (buffer : List Char) (g : Nat) (line lastNL : Int)
    (st : ParserState) (idx : SqlIndex) (h : (tableNames idx).Nodup) :
    (tableNames (processChunk buffer g line lastNL st idx).index).Nodup :=
  processChunkAux_nodup g st (buffer.length + 1) 0 buffer line lastNL idx h

theorem processFileAux_nodup (content : List Char) (chunkSize : Nat) :
    ∀ (fuel : Nat) (buffer remaining : List Char) (g : Nat) (line lastNL : Int)
      (idx out : SqlIndex),
      (tableNames idx).Nodup →
      processFileAux content chunkSize fuel buffer remaining g line lastNL idx = some out →
      (tableNames out).Nodup := by
  intro fuel
  induction fuel with
  | zero =>
    intro buffer remaining g line lastNL idx out h heq
    simp [processFileAux] at heq
  | succ n ih =>
    intro buffer remaining g line lastNL idx out h heq
    rw [processFileAux] at heq
    split at heq
    · cases heq; exact h
    · dsimp only at heq
      split at heq
      · cases heq
        exact processChunk_nodup _ _ _ _ _ _ h
      · exact ih _ _ _ _ _ _ _ (processChunk_nodup _ _ _ _ _ _ h) heq

theorem processSqlFile_nodup (content : List Char) (chunkSize : Nat) (out : SqlIndex)
    (heq : processSqlFile content chunkSize = some out) : (tableNames out).Nodup :=
  processFileAux_nodup content chunkSize _ _ _ _ _ _ _ _ (by simp [tableNames]) heq

theorem tableNames_addIndexEntry (idx : SqlIndex) (t nm : List Char) (ln : Int)
    (ht : t ≠ tableTypeStr) : tableNames (addIndexEntry idx t nm ln) = tableNames idx := by
  unfold addIndexEntry
  rw [tableNames_append]
  have hsingle : tableNames [(⟨t, nm, ln, none⟩ : IndexEntry)] = [] := by
    simp [tableNames, ht]
  simp [hsingle]

theorem tableNames_set_info (idx : SqlIndex) (i : Nat) (e : IndexEntry)
    (o : Option TableInfo) (hget : idx.get? i = some e) :
    tableNames (idx.set i { e with table_info := o }) = tableNames idx :=
  tableNames_set idx i e _ hget rfl rfl

theorem readLoop_nodup :
    ∀ (ls : List (List Char)) (idx : SqlIndex) (reg : Option (List Char)) (out : SqlIndex),
      (tableNames idx).Nodup → readLoop ls idx reg = some out → (tableNames out).Nodup := by
  intro ls
  induction ls with
  | nil =>
    intro idx reg out h heq
    rw [readLoop] at heq
    cases heq
    exact h
  | cons l ls ih =>
    intro idx reg out h heq
    rw [readLoop] at heq
    dsimp only at heq
    split at heq
    · -- COLUMN line
      split at heq
      · -- matching column: appended to the last entry in place
        cases hLast : idx.getLast? with
        | none => rw [hLast] at heq; simp at heq
        | some e =>
          rw [hLast] at heq
          dsimp only at heq
          cases hti : e.table_info with
          | none => rw [hti] at heq; simp at heq
          | some ti =>
            rw [hti] at heq
            dsimp only at heq
            refine ih _ _ _ ?_ heq
            have hget : idx.get? (idx.length - 1) = some e := by
              rw [List.get?_eq_getElem?, ← List.getLast?_eq_getElem?]
              exact hLast
            rw [tableNames_set_info idx (idx.length - 1) e _ hget]
            exact h
      · exact ih _ _ _ h heq
    · -- main entry line
      split at heq
      · split at heq
        · -- TABLE entry: dedup append, possibly end_offset backfill
          refine ih _ _ _ ?_ heq
          split
          · rw [tableNames_mapTableInfoAt]
            exact tableNames_addTableEntry_nodup idx _ _ h
          · exact tableNames_addTableEntry_nodup idx _ _ h
        · -- non-table entry: plain append of a non-TABLE type
          rename_i hguard
          refine ih _ _ _ ?_ heq
          rw [tableNames_addIndexEntry]
          · exact h
          · cases hms : (parseMainLine (List.take 1023 l)).type with
            | none => simp [tableTypeStr]
            | some t =>
              rw [hms] at hguard
              simpa using hguard
      · exact ih _ _ _ h heq

theorem readIndexFromFile_nodup (content : List Char) (out : SqlIndex)
    (heq : readIndexFromFile content = some out) : (tableNames out).Nodup := by
  unfold readIndexFromFile at heq
  split at heq
  · cases heq; simp [tableNames]
  · split at heq <;> exact readLoop_nodup _ _ _ _ (by simp [tableNames]) heq

/-- C10. Appending a table whose name is already present among the TABLE
entries leaves the store unchanged (and `add_table_entry` reports success),
and the store's TABLE names stay pairwise distinct at every point of a scan
(each loop iteration of `process_chunk` preserves distinctness — see
`chunkStep_nodup` — hence so do whole chunks and the whole chunked file
scan from the empty store) and after loading a persisted index. -/
theorem claim_C10_unique_table_names :
    (∀ (idx : SqlIndex) (name : List Char) (line : Int),
        idx.any (isTableNamed name) = true → addTableEntry idx name line = idx) ∧
    (∀ (buffer : List Char) (g : Nat) (line lastNL : Int) (idx : SqlIndex),
        (tableNames idx).Nodup →
        (tableNames (processChunk buffer g line lastNL ParserState.code idx).index).Nodup) ∧
    (∀ (content : List Char) (chunkSize : Nat) (out : SqlIndex),
        processSqlFile content chunkSize = some out → (tableNames out).Nodup) ∧
    (∀ (content : List Char) (out : SqlIndex),
        readIndexFromFile content = some out → (tableNames out).Nodup) :=
  ⟨addTableEntry_dup,
   fun buffer g line lastNL idx h => processChunk_nodup buffer g line lastNL _ idx h,
   fun content chunkSize out heq => processSqlFile_nodup content chunkSize out heq,
   fun content out heq => readIndexFromFile_nodup content out heq⟩

/-- This claim's theorem has hypotheses; instantiation at concrete inputs:
re-adding table `t` to a store that already has it changes nothing, and a
complete chunked scan yields distinct TABLE names. -/
theorem claim_C10_unique_table_names_witness :
    addTableEntry [tinyEntry] "t".toList 9 = [tinyEntry] ∧
    (tableNames [tinyEntry]).Nodup :=
  ⟨claim_C10_unique_table_names.1 [tinyEntry] "t".toList 9 (by decide),
   claim_C10_unique_table_names.2.2.1 tinyDDL 4096 [tinyEntry] (by decide)⟩

/-- C9, amended. Malformed entry lines (fewer than 3 conversions) are skipped
— only the name register may change — and malformed or non-matching COLUMN
lines are skipped too; the fatal path is narrower than claimed: it fires only
for a COLUMN line whose table name equals the register left by the most
recent main entry line while the matching entry slot is out of bounds (no
entry yet — an out-of-bounds `entries[-1]` access in C, modelled as failure)
or the last entry carries no table structure. A COLUMN line before any main
line compares against the uninitialized register (modelled as matching
nothing) and is skipped, not fatal. -/
theorem claim_C9_malformed_vs_fatal :
    (∀ (l : List Char) (ls : List (List Char)) (idx : SqlIndex) (reg : Option (List Char)),
        l.length ≤ 1023 → l.take 7 ≠ "COLUMN,".toList → (parseMainLine l).cnt < 3 →
        readLoop (l :: ls) idx reg =
          readLoop ls idx (if 2 ≤ (parseMainLine l).cnt then (parseMainLine l).name else reg)) ∧
    (∀ (l : List Char) (ls : List (List Char)) (idx : SqlIndex) (reg : Option (List Char)),
        l.length ≤ 1023 → l.take 7 = "COLUMN,".toList →
        ¬(3 ≤ (parseColumnLine l).cnt ∧ reg.isSome = true ∧ (parseColumnLine l).table = reg) →
        readLoop (l :: ls) idx reg = readLoop ls idx reg) ∧
    (∀ (l : List Char) (ls : List (List Char)) (idx : SqlIndex) (nb : List Char),
        l.length ≤ 1023 → l.take 7 = "COLUMN,".toList →
        3 ≤ (parseColumnLine l).cnt → (parseColumnLine l).table = some nb →
        (idx = [] ∨ ∃ e, idx.getLast? = some e ∧ e.table_info = none) →
        readLoop (l :: ls) idx (some nb) = none) := by
  refine ⟨?_, ?_, ?_⟩
  · intro l ls idx reg hlen hcol hcnt
    rw [readLoop]
    dsimp only
    rw [List.take_of_length_le hlen]
    rw [if_neg (by simpa using hcol)]
    rw [if_neg (by omega)]
  · intro l ls idx reg hlen hcol hne
    rw [readLoop]
    dsimp only
    rw [List.take_of_length_le hlen]
    rw [if_pos (by simpa using hcol)]
    rw [if_neg ?_]
    simp only [Bool.and_eq_true, decide_eq_true_eq, beq_iff_eq]
    exact fun hh => hne ⟨hh.1.1, hh.1.2, hh.2⟩
  · intro l ls idx nb hlen hcol hcnt htbl hbad
    rw [readLoop]
    dsimp only
    rw [List.take_of_length_le hlen]
    rw [if_pos (by simpa using hcol)]
    rw [if_pos ?h]
    case h =>
      simp only [Bool.and_eq_true, decide_eq_true_eq, beq_iff_eq]
      exact ⟨⟨hcnt, rfl⟩, htbl⟩
    rcases hbad with hnil | ⟨e, hLast, hti⟩
    · subst hnil; rfl
    · rw [hLast]
      dsimp only
      rw [hti]

/-- This claim's theorem has hypotheses; instantiations: an orphaned COLUMN
line whose name happens to match the register with no entry to attach to is
fatal, and a malformed main line is skipped. -/
theorem claim_C9_malformed_vs_fatal_witness :
    readLoop ["COLUMN,t,c,INT,0,0,0,x".toList] [] (some "t".toList) = none ∧
    readLoop ["garbage".toList] [] none = readLoop [] [] none :=
  ⟨claim_C9_malformed_vs_fatal.2.2 "COLUMN,t,c,INT,0,0,0,x".toList [] [] "t".toList
      (by decide) (by decide) (by decide) (by decide) (Or.inl rfl),
   claim_C9_malformed_vs_fatal.1 "garbage".toList [] [] none
      (by decide) (by decide) (by decide)⟩

-- --- Round-trip machinery (C4): list scanning helpers ---

theorem takeWhile_append_of_all {p : Char → Bool} {a : List Char} (b : List Char)
    (h : ∀ c ∈ a, p c = true) : (a ++ b).takeWhile p = a ++ b.takeWhile p := by
  induction a with
  | nil => simp
  | cons x xs ih =>
    simp only [List.cons_append, List.takeWhile_cons, h x (by simp)]
    simp [ih (fun c hc => h c (by simp [hc]))]

theorem dropWhile_append_of_all {p : Char → Bool} {a : List Char} (b : List Char)
    (h : ∀ c ∈ a, p c = true) : (a ++ b).dropWhile p = b.dropWhile p := by
  induction a with
  | nil => simp
  | cons x xs ih =>
    simp only [List.cons_append, List.dropWhile_cons, h x (by simp), if_true]
    exact ih (fun c hc => h c (by simp [hc]))

theorem takeWhile_eq_self_of_all {p : Char → Bool} {a : List Char}
    (h : ∀ c ∈ a, p c = true) : a.takeWhile p = a := by
  simpa using takeWhile_append_of_all (p := p) (a := a) [] h

-- --- Round-trip machinery (C4): decimal rendering round-trips ---

theorem natDigitsAux_acc (fuel : Nat) :
    ∀ (n : Nat) (acc : List Char), natDigitsAux fuel n acc = natDigitsAux fuel n [] ++ acc := by
  induction fuel with
  | zero => intro n acc; simp [natDigitsAux]
  | succ f ih =>
    intro n acc
    by_cases h : n < 10
    · simp [natDigitsAux, h]
    · rw [natDigitsAux, natDigitsAux]
      simp only [h, if_false]
      rw [ih (n / 10) (Char.ofNat (48 + n % 10) :: acc), ih (n / 10) [Char.ofNat (48 + n % 10)]]
      simp

theorem natDigitsAux_fuel (n : Nat) :
    ∀ (f1 f2 : Nat), n < f1 → n < f2 → ∀ acc, natDigitsAux f1 n acc = natDigitsAux f2 n acc := by
  induction n using Nat.strong_induction_on with
  | _ n ih =>
    intro f1 f2 h1 h2 acc
    obtain ⟨g1, rfl⟩ : ∃ g1, f1 = g1 + 1 := ⟨f1 - 1, by omega⟩
    obtain ⟨g2, rfl⟩ : ∃ g2, f2 = g2 + 1 := ⟨f2 - 1, by omega⟩
    by_cases h : n < 10
    · simp [natDigitsAux, h]
    · rw [natDigitsAux, natDigitsAux]
      simp only [h, if_false]
      exact ih (n / 10) (by omega) g1 g2 (by omega) (by omega) _

theorem natDigits_small (n : Nat) (h : n < 10) :
    natDigits n = [Char.ofNat (48 + n)] := by
  rw [natDigits, natDigitsAux]
  simp [h, Nat.mod_eq_of_lt h]

theorem natDigits_big (n : Nat) (h : 10 ≤ n) :
    natDigits n = natDigits (n / 10) ++ [Char.ofNat (48 + n % 10)] := by
  rw [natDigits, natDigitsAux]
  simp only [show ¬(n < 10) by omega, if_false]
  rw [natDigitsAux_acc]
  rw [natDigits]
  rw [natDigitsAux_fuel (n / 10) n (n / 10 + 1) (by omega) (by omega)]

theorem digit_char_is_digit : ∀ k, k < 10 → isDigitC (Char.ofNat (48 + k)) = true := by decide

theorem digit_char_toNat : ∀ k, k < 10 → (Char.ofNat (48 + k)).toNat = 48 + k := by decide

theorem natDigits_all_digits (n : Nat) : ∀ c ∈ natDigits n, isDigitC c = true := by
  induction n using Nat.strong_induction_on with
  | _ n ih =>
    by_cases h : n < 10
    · rw [natDigits_small n h]
      intro c hc
      simp at hc
      subst hc
      exact digit_char_is_digit n h
    · rw [natDigits_big n (by omega)]
      intro c hc
      rcases List.mem_append.mp hc with h1 | h2
      · exact ih (n / 10) (by omega) c h1
      · simp at h2
        subst h2
        exact digit_char_is_digit (n % 10) (by omega)

theorem natDigits_ne_nil (n : Nat) : natDigits n ≠ [] := by
  by_cases h : n < 10
  · rw [natDigits_small n h]; simp
  · rw [natDigits_big n (by omega)]; simp

theorem digitsToNat_append_one (a : List Char) (c : Char) :
    digitsToNat (a ++ [c]) = 10 * digitsToNat a + (c.toNat - 48) := by
  simp [digitsToNat, List.foldl_append]
  ring

theorem digitsToNat_natDigits (n : Nat) : digitsToNat (natDigits n) = n := by
  induction n using Nat.strong_induction_on with
  | _ n ih =>
    by_cases h : n < 10
    · rw [natDigits_small n h]
      simp [digitsToNat, digit_char_toNat n h]
    · rw [natDigits_big n (by omega), digitsToNat_append_one,
          ih (n / 10) (by omega), digit_char_toNat (n % 10) (by omega)]
      omega

theorem digit_beq_false (c x : Char) (h : isDigitC c = true) (hx : isDigitC x = false) :
    (c == x) = false := by
  rw [beq_eq_false_iff_ne]
  rintro rfl
  rw [h] at hx
  cases hx

theorem digit_not_space (c : Char) (h : isDigitC c = true) : isSpaceC c = false := by
  simp only [isSpaceC,
    digit_beq_false c ' ' h (by decide), digit_beq_false c '\t' h (by decide),
    digit_beq_false c '\n' h (by decide), digit_beq_false c (Char.ofNat 11) h (by decide),
    digit_beq_false c (Char.ofNat 12) h (by decide), digit_beq_false c '\x0d' h (by decide),
    Bool.or_self, Bool.or_false]

theorem digit_ne_of (c x : Char) (h : isDigitC c = true) (hx : isDigitC x = false) :
    c ≠ x := by
  simpa using digit_beq_false c x h hx

theorem natDigits_isEmpty (n : Nat) : (natDigits n).isEmpty = false := by
  cases h : natDigits n with
  | nil => exact absurd h (natDigits_ne_nil n)
  | cons a l => rfl

theorem scanInt_intDigits (i : Int) (rest : List Char)
    (hr : ∀ c, rest.head? = some c → isDigitC c = false) :
    scanInt (intDigits i ++ rest) = some (i, rest) := by
  have htws : ∀ (m : Nat), (natDigits m ++ rest).takeWhile isDigitC = natDigits m := by
    intro m
    rw [takeWhile_append_of_all rest (natDigits_all_digits m)]
    cases rest with
    | nil => simp
    | cons c r =>
      rw [List.takeWhile_cons, hr c rfl]
      simp
  by_cases hneg : i < 0
  · rw [show intDigits i = '-' :: natDigits i.natAbs from by simp [intDigits, hneg]]
    simp only [List.cons_append, scanInt]
    simp only [show ('-' :: (natDigits i.natAbs ++ rest)).dropWhile isSpaceC =
        '-' :: (natDigits i.natAbs ++ rest) from by
      rw [List.dropWhile_cons]; simp +decide]
    simp only [List.head?_cons]
    simp only [show ((some '-' : Option Char) == some '-') = true from by decide,
      Bool.true_or, if_true, List.drop_succ_cons, List.drop_zero]
    simp only [htws i.natAbs, natDigits_isEmpty i.natAbs, Bool.false_eq_true, if_false,
      digitsToNat_natDigits, List.drop_left]
    congr 1
    congr 1
    omega
  · rw [show intDigits i = natDigits i.toNat from by simp [intDigits, hneg]]
    obtain ⟨d0, tl, hcons⟩ := List.exists_cons_of_ne_nil (natDigits_ne_nil i.toNat)
    have hd0 : isDigitC d0 = true := natDigits_all_digits i.toNat d0 (by rw [hcons]; simp)
    simp only [scanInt]
    simp only [show (natDigits i.toNat ++ rest).dropWhile isSpaceC =
        natDigits i.toNat ++ rest from by
      rw [hcons, List.cons_append, List.dropWhile_cons, digit_not_space d0 hd0]; simp]
    simp only [show (natDigits i.toNat ++ rest).head? = some d0 from by
      rw [hcons, List.cons_append, List.head?_cons]]
    simp only [show ((some d0 : Option Char) == some '-') = false from by
      rw [beq_eq_false_iff_ne]; intro hh; cases hh; exact absurd hd0 (by decide),
      show ((some d0 : Option Char) == some '+') = false from by
      rw [beq_eq_false_iff_ne]; intro hh; cases hh; exact absurd hd0 (by decide)]
    simp only [Bool.or_self, Bool.false_eq_true, if_false]
    simp only [htws i.toNat, natDigits_isEmpty i.toNat, Bool.false_eq_true, if_false,
      digitsToNat_natDigits, List.drop_left]
    congr 1
    congr 1
    omega

-- --- Round-trip machinery (C4): the individual sscanf directives ---

theorem scanFieldNoComma_exact (n : Nat) (a r : List Char)
    (h1 : a ≠ []) (h2 : a.length ≤ n) (h3 : ∀ c ∈ a, c ≠ ',') :
    scanFieldNoComma n (a ++ ',' :: r) = some (a, ',' :: r) := by
  unfold scanFieldNoComma
  have htw : (a ++ ',' :: r).takeWhile (fun c => c ≠ ',') = a := by
    rw [takeWhile_append_of_all (',' :: r) (fun c hc => by simpa using h3 c hc)]
    rw [List.takeWhile_cons]
    simp
  simp only [htw, List.take_of_length_le h2]
  rw [if_neg (by simpa [List.isEmpty_iff] using h1)]
  rw [List.drop_left]

theorem scanLit_cons (c : Char) (r : List Char) : scanLit c (c :: r) = some r := by
  simp [scanLit]

theorem scanFieldNoNL_exact (n : Nat) (d : List Char) (h1 : d ≠ []) (h2 : d.length ≤ n) :
    scanFieldNoNL n d = some (d, []) := by
  unfold scanFieldNoNL
  rw [if_neg (by simpa [List.isEmpty_iff] using h1)]
  rw [List.take_of_length_le h2, List.drop_of_length_le h2]

theorem bit_intDigits (b : Bool) :
    (if b then ['1'] else ['0']) = intDigits (if b then 1 else 0) := by
  cases b <;> rfl

theorem scanInt_intDigits_end (i : Int) : scanInt (intDigits i) = some (i, []) := by
  simpa using scanInt_intDigits i [] (fun c hc => by simp at hc)

-- --- Round-trip machinery (C4): whole lines parse back ---

theorem parseMainLine_table (ty nm : List Char) (ln off : Int)
    (hty : wfField ty) (hnm : wfField nm) :
    parseMainLine (ty ++ [','] ++ nm ++ [','] ++ intDigits ln ++ [','] ++ intDigits off) =
      ⟨4, some ty, some nm, some ln, some off⟩ := by
  obtain ⟨hty1, hty2, hty3⟩ := hty
  obtain ⟨hnm1, hnm2, hnm3⟩ := hnm
  have hshape : ty ++ [','] ++ nm ++ [','] ++ intDigits ln ++ [','] ++ intDigits off =
      ty ++ ',' :: (nm ++ ',' :: (intDigits ln ++ ',' :: intDigits off)) := by
    simp
  rw [hshape]
  simp only [parseMainLine,
    scanFieldNoComma_exact 255 ty (nm ++ ',' :: (intDigits ln ++ ',' :: intDigits off))
      hty1 hty2 (fun c hc => (hty3 c hc).1),
    scanLit_cons,
    scanFieldNoComma_exact 511 nm (intDigits ln ++ ',' :: intDigits off)
      hnm1 (le_trans hnm2 (by norm_num)) (fun c hc => (hnm3 c hc).1),
    scanInt_intDigits ln (',' :: intDigits off)
      (fun c hc => by simp at hc; subst hc; decide),
    scanInt_intDigits_end off]

theorem parseMainLine_other (ty nm : List Char) (ln : Int)
    (hty : wfField ty) (hnm : wfField nm) :
    parseMainLine (ty ++ [','] ++ nm ++ [','] ++ intDigits ln) =
      ⟨3, some ty, some nm, some ln, none⟩ := by
  obtain ⟨hty1, hty2, hty3⟩ := hty
  obtain ⟨hnm1, hnm2, hnm3⟩ := hnm
  have hshape : ty ++ [','] ++ nm ++ [','] ++ intDigits ln =
      ty ++ ',' :: (nm ++ ',' :: intDigits ln) := by
    simp
  rw [hshape]
  simp only [parseMainLine,
    scanFieldNoComma_exact 255 ty (nm ++ ',' :: intDigits ln)
      hty1 hty2 (fun c hc => (hty3 c hc).1),
    scanLit_cons,
    scanFieldNoComma_exact 511 nm (intDigits ln)
      hnm1 (le_trans hnm2 (by norm_num)) (fun c hc => (hnm3 c hc).1),
    scanInt_intDigits_end ln]
  simp [scanLit]

theorem decide_bit_ne (b : Bool) : decide ((if b then (1 : Int) else 0) ≠ 0) = b := by
  cases b <;> decide

theorem parseColumnLine_roundtrip (tn : List Char) (c : ColumnInfo)
    (htn : wfField tn) (hc : wfColumn c) :
    3 ≤ (parseColumnLine (writeColumnLine tn c)).cnt ∧
    (parseColumnLine (writeColumnLine tn c)).table = some tn ∧
    mkColFromScan (parseColumnLine (writeColumnLine tn c)) = c := by
  obtain ⟨htn1, htn2, htn3⟩ := htn
  obtain ⟨cnm, cty, cpk, cnn, cai, cdv⟩ := c
  obtain ⟨⟨hn1, hn2, hn3⟩, ⟨ht1, ht2, ht3⟩, hdv⟩ := hc
  dsimp only at hn1 hn2 hn3 ht1 ht2 ht3 hdv ⊢
  have hdrop : ∀ z : List Char, ("COLUMN,".toList ++ z).drop 7 = z := by
    intro z
    rw [show (7 : Nat) = ("COLUMN,".toList).length from rfl, List.drop_left]
  cases cdv with
  | none =>
    have hshape : writeColumnLine tn ⟨cnm, cty, cpk, cnn, cai, none⟩ = "COLUMN,".toList ++
        (tn ++ ',' :: (cnm ++ ',' :: (cty ++ ',' ::
          ((if cpk then ['1'] else ['0']) ++ ',' ::
            ((if cnn then ['1'] else ['0']) ++ ',' ::
              ((if cai then ['1'] else ['0']) ++ [','])))))) := by
      rw [writeColumnLine]
      simp
    rw [hshape]
    unfold parseColumnLine
    rw [hdrop]
    simp only [bit_intDigits,
      scanFieldNoComma_exact 255 tn _ htn1 htn2 (fun x hx => (htn3 x hx).1),
      scanLit_cons,
      scanFieldNoComma_exact 255 cnm _ hn1 hn2 (fun x hx => (hn3 x hx).1),
      scanFieldNoComma_exact 255 cty _ ht1 ht2 (fun x hx => (ht3 x hx).1),
      scanInt_intDigits _ (',' :: _) (fun x hx => by simp at hx; subst hx; decide)]
    simp only [show scanFieldNoNL 255 [] = none from rfl]
    refine ⟨by norm_num, by trivial, by simp [mkColFromScan, decide_bit_ne]⟩
  | some d =>
    obtain ⟨hd1, hd2, hd3⟩ := hdv
    have hshape : writeColumnLine tn ⟨cnm, cty, cpk, cnn, cai, some d⟩ = "COLUMN,".toList ++
        (tn ++ ',' :: (cnm ++ ',' :: (cty ++ ',' ::
          ((if cpk then ['1'] else ['0']) ++ ',' ::
            ((if cnn then ['1'] else ['0']) ++ ',' ::
              ((if cai then ['1'] else ['0']) ++ ',' :: d)))))) := by
      rw [writeColumnLine]
      simp
    rw [hshape]
    unfold parseColumnLine
    rw [hdrop]
    simp only [bit_intDigits,
      scanFieldNoComma_exact 255 tn _ htn1 htn2 (fun x hx => (htn3 x hx).1),
      scanLit_cons,
      scanFieldNoComma_exact 255 cnm _ hn1 hn2 (fun x hx => (hn3 x hx).1),
      scanFieldNoComma_exact 255 cty _ ht1 ht2 (fun x hx => (ht3 x hx).1),
      scanInt_intDigits _ (',' :: _) (fun x hx => by simp at hx; subst hx; decide)]
    simp only [scanFieldNoNL_exact 255 d hd1 hd2]
    refine ⟨by norm_num, by trivial, by simp [mkColFromScan, decide_bit_ne]⟩

-- --- Round-trip machinery (C4): the reading loop consumes written blocks ---

theorem set_concat_length {α : Type} (l : List α) (a b : α) :
    (l ++ [a]).set l.length b = l ++ [b] := by
  induction l with
  | nil => rfl
  | cons x xs ih => simp only [List.cons_append, List.length_cons, List.set_cons_succ, ih]

theorem comma_cancel (a b z w : List Char) (ha : ∀ c ∈ a, c ≠ ',') (hb : ∀ c ∈ b, c ≠ ',')
    (h : a ++ ',' :: z = b ++ ',' :: w) : a = b := by
  induction a generalizing b with
  | nil =>
    cases b with
    | nil => rfl
    | cons x bs =>
      injection h with h1 h2
      exact absurd h1.symm (hb x (by simp))
  | cons x as ih =>
    cases b with
    | nil =>
      injection h with h1 h2
      exact absurd h1 (ha x (by simp))
    | cons y bs =>
      injection h with h1 h2
      subst h1
      rw [ih bs (fun c hc => ha c (by simp [hc])) (fun c hc => hb c (by simp [hc])) h2]

theorem main_line_take7_ne (ty z : List Char) (h3 : ∀ c ∈ ty, c ≠ ',')
    (hne : ty ≠ "COLUMN".toList) :
    ((ty ++ ',' :: z).take 7 == "COLUMN,".toList) = false := by
  rw [beq_eq_false_iff_ne]
  intro h
  have hx : ty ++ ',' :: z = "COLUMN".toList ++ ',' :: (ty ++ ',' :: z).drop 7 := by
    conv_lhs => rw [← List.take_append_drop 7 (ty ++ ',' :: z)]
    rw [h]
    rfl
  exact hne (comma_cancel ty "COLUMN".toList z _ h3 (by decide) hx)

theorem col_line_take7 (z : List Char) :
    (("COLUMN,".toList ++ z).take 7 == "COLUMN,".toList) = true := by
  rw [show (7 : Nat) = ("COLUMN,".toList).length from rfl, List.take_left]
  simp

theorem readLoop_cols (tn : List Char) (ln off : Int) (htn : wfField tn) :
    ∀ (cs done : List ColumnInfo) (pre : SqlIndex) (ls : List (List Char)),
      (∀ c ∈ cs, wfColumn c) →
      (∀ c ∈ cs, (writeColumnLine tn c).length ≤ 1023) →
      readLoop (cs.map (writeColumnLine tn) ++ ls)
          (pre ++ [⟨tableTypeStr, tn, ln, some ⟨tn, done, ln, off⟩⟩]) (some tn) =
        readLoop ls (pre ++ [⟨tableTypeStr, tn, ln, some ⟨tn, done ++ cs, ln, off⟩⟩]) (some tn) := by
  intro cs
  induction cs with
  | nil => intro done pre ls _ _; simp
  | cons c cs ih =>
    intro done pre ls hwf hlen
    simp only [List.map_cons, List.cons_append]
    obtain ⟨hcnt, htbl, hcol⟩ :=
      parseColumnLine_roundtrip tn c htn (hwf c (by simp))
    have h7 : ((writeColumnLine tn c).take 7 == "COLUMN,".toList) = true := by
      rw [writeColumnLine]
      simp only [List.append_assoc]
      exact col_line_take7 _
    have hcond2 : (decide (3 ≤ (parseColumnLine (writeColumnLine tn c)).cnt) &&
        (some tn : Option (List Char)).isSome &&
        ((parseColumnLine (writeColumnLine tn c)).table == some tn)) = true := by
      simp [hcnt, htbl]
    rw [readLoop]
    dsimp only
    rw [List.take_of_length_le (hlen c (by simp))]
    rw [h7]
    simp only [if_true]
    rw [hcond2]
    simp only [if_true]
    rw [List.getLast?_concat]
    dsimp only
    rw [show (pre ++ [(⟨tableTypeStr, tn, ln, some ⟨tn, done, ln, off⟩⟩ : IndexEntry)]).length - 1
          = pre.length from by simp]
    rw [set_concat_length]
    rw [hcol]
    rw [ih (done ++ [c]) pre ls (fun x hx => hwf x (by simp [hx]))
        (fun x hx => hlen x (by simp [hx]))]
    simp

theorem beq_some_false_of_ne {a b : List Char} (h : a ≠ b) :
    ((some a : Option (List Char)) == some b) = false := by
  rw [beq_eq_false_iff_ne]
  simpa using h

theorem readLoop_entry (e : IndexEntry) (pre : SqlIndex) (ls : List (List Char))
    (reg : Option (List Char)) (hwf : wfEntry e)
    (hfresh : e.type = tableTypeStr → pre.any (isTableNamed e.name) = false) :
    readLoop (writeEntryLines e ++ ls) pre reg = readLoop ls (pre ++ [e]) (some e.name) := by
  obtain ⟨⟨hn1, hn2, hn3⟩, ⟨ht1, ht2, ht3⟩, hnc, hlen, hmatch⟩ := hwf
  obtain ⟨ty, nm, lnn, info⟩ := e
  dsimp only at hn1 hn2 hn3 ht1 ht2 ht3 hnc hlen hmatch hfresh ⊢
  cases info with
  | some ti =>
    obtain ⟨tin, tics, til, tioff⟩ := ti
    dsimp only [wfInfo] at hmatch
    obtain ⟨hty, htin, htil, hcols⟩ := hmatch
    subst hty
    subst htin
    subst htil
    have hlines : writeEntryLines ⟨tableTypeStr, tin, til, some ⟨tin, tics, til, tioff⟩⟩ =
        (tableTypeStr ++ [','] ++ tin ++ [','] ++ intDigits til ++ [','] ++ intDigits tioff)
          :: tics.map (writeColumnLine tin) := by
      rw [writeEntryLines]
      simp
    rw [hlines] at hlen ⊢
    simp only [List.cons_append]
    rw [readLoop]
    dsimp only
    have hLL : (tableTypeStr ++ [','] ++ tin ++ [','] ++ intDigits til ++ [','] ++
        intDigits tioff).length ≤ 1023 := hlen _ (by simp)
    rw [List.take_of_length_le hLL]
    have hsh : tableTypeStr ++ [','] ++ tin ++ [','] ++ intDigits til ++ [','] ++
        intDigits tioff =
        tableTypeStr ++ ',' :: (tin ++ ',' :: (intDigits til ++ ',' :: intDigits tioff)) := by
      simp
    rw [show ((tableTypeStr ++ [','] ++ tin ++ [','] ++ intDigits til ++ [','] ++
          intDigits tioff).take 7 == "COLUMN,".toList) = false from by
      rw [hsh]
      exact main_line_take7_ne tableTypeStr _ (by decide) (by decide)]
    simp only [Bool.false_eq_true, if_false]
    rw [parseMainLine_table tableTypeStr tin til tioff ⟨by decide, by decide, by decide⟩
        ⟨hn1, hn2, hn3⟩]
    dsimp only
    rw [if_pos (by norm_num)]
    rw [show ((some tableTypeStr : Option (List Char)) == some tableTypeStr) = true from by simp]
    simp only [if_true]
    have h24 : (2 : Nat) ≤ 4 := by norm_num
    simp only [Option.getD_some, h24, if_true]
    rw [addTableEntry_fresh pre tin til (hfresh rfl)]
    rw [show (((4 : Nat) == 4) && !(pre ++
        [(⟨tableTypeStr, tin, til, some ⟨tin, [], til, -1⟩⟩ : IndexEntry)]).isEmpty) = true from by
      simp]
    simp only [if_true]
    unfold mapTableInfoAt
    rw [show (pre ++ [(⟨tableTypeStr, tin, til, some ⟨tin, [], til, -1⟩⟩ : IndexEntry)]).length - 1
          = pre.length from by simp]
    rw [List.get?_concat_length]
    dsimp only [Option.map]
    rw [set_concat_length]
    rw [readLoop_cols tin til tioff ⟨hn1, hn2, hn3⟩ tics [] pre ls hcols
        (fun c hc => hlen _ (List.mem_cons_of_mem _ (List.mem_map_of_mem _ hc)))]
    simp
  | none =>
    dsimp only [wfInfo] at hmatch
    have hlines : writeEntryLines ⟨ty, nm, lnn, none⟩ =
        [ty ++ [','] ++ nm ++ [','] ++ intDigits lnn] := by
      rw [writeEntryLines]
      split <;> rfl
    rw [hlines]
    simp only [List.cons_append, List.nil_append]
    rw [readLoop]
    dsimp only
    have hLL : (ty ++ [','] ++ nm ++ [','] ++ intDigits lnn).length ≤ 1023 := by
      have := hlen (ty ++ [','] ++ nm ++ [','] ++ intDigits lnn) (by rw [hlines]; simp)
      exact this
    rw [List.take_of_length_le hLL]
    have hsh : ty ++ [','] ++ nm ++ [','] ++ intDigits lnn =
        ty ++ ',' :: (nm ++ ',' :: intDigits lnn) := by
      simp
    rw [show ((ty ++ [','] ++ nm ++ [','] ++ intDigits lnn).take 7 ==
        "COLUMN,".toList) = false from by
      rw [hsh]
      exact main_line_take7_ne ty _ (fun c hc => (ht3 c hc).1) hnc]
    simp only [Bool.false_eq_true, if_false]
    rw [parseMainLine_other ty nm lnn ⟨ht1, ht2, ht3⟩ ⟨hn1, hn2, hn3⟩]
    dsimp only
    rw [if_pos (by norm_num)]
    rw [beq_some_false_of_ne hmatch]
    simp only [Bool.false_eq_true, if_false]
    have h23 : (2 : Nat) ≤ 3 := by norm_num
    simp only [Option.getD_some, h23, if_true]
    rfl

theorem readLoop_blocks (s : SqlIndex) :
    ∀ (pre : SqlIndex) (ls : List (List Char)) (reg : Option (List Char)),
      (∀ e ∈ s, wfEntry e) → (tableNames (pre ++ s)).Nodup →
      readLoop ((s.map writeEntryLines).flatten ++ ls) pre reg =
        readLoop ls (pre ++ s) (s.foldl (fun _ e => some e.name) reg) := by
  induction s with
  | nil => intro pre ls reg _ _; simp
  | cons e s ih =>
    intro pre ls reg hwf hnd
    simp only [List.map_cons, List.flatten_cons, List.append_assoc]
    rw [readLoop_entry e pre _ reg (hwf e (by simp)) ?fresh]
    case fresh =>
      intro hty
      cases hany : pre.any (isTableNamed e.name) with
      | false => rfl
      | true =>
        exfalso
        have hmem : e.name ∈ tableNames pre := (any_isTableNamed _ _).mp hany
        have hmem2 : e.name ∈ tableNames (e :: s) := by
          rw [tableNames_cons]
          simp [hty]
        rw [tableNames_append] at hnd
        exact (List.nodup_append.mp hnd).2.2 hmem hmem2
    rw [ih (pre ++ [e]) ls (some e.name) (fun x hx => hwf x (by simp [hx]))
        (by simpa using hnd)]
    simp

-- --- Round-trip machinery (C4): written streams split back into their lines ---

theorem intDigits_no_nl (i : Int) : ∀ c ∈ intDigits i, c ≠ '\n' := by
  unfold intDigits
  split
  · intro c hc
    rcases List.mem_cons.mp hc with h | h
    · subst h; decide
    · exact digit_ne_of c '\n' (natDigits_all_digits _ c h) (by decide)
  · intro c hc
    exact digit_ne_of c '\n' (natDigits_all_digits _ c hc) (by decide)

theorem writeEntryLines_noNL (e : IndexEntry) (hwf : wfEntry e) :
    ∀ l ∈ writeEntryLines e, '\n' ∉ l := by
  obtain ⟨⟨hn1, hn2, hn3⟩, ⟨ht1, ht2, ht3⟩, hnc, hlen, hmatch⟩ := hwf
  obtain ⟨ty, nm, lnn, info⟩ := e
  dsimp only at hn1 hn2 hn3 ht1 ht2 ht3 hnc hmatch ⊢
  have hty : '\n' ∉ ty := fun hm => (ht3 _ hm).2 rfl
  have hnm : '\n' ∉ nm := fun hm => (hn3 _ hm).2 rfl
  cases info with
  | some ti =>
    obtain ⟨tin, tics, til, tioff⟩ := ti
    dsimp only [wfInfo] at hmatch
    obtain ⟨hety, htin, htil, hcols⟩ := hmatch
    subst hety; subst htin; subst htil
    intro l hl
    rw [writeEntryLines] at hl
    simp only [show ((tableTypeStr : List Char) == tableTypeStr) = true from by simp,
      if_true, List.mem_cons] at hl
    rcases hl with hl | hl
    · subst hl
      intro hm
      simp only [List.mem_append, List.mem_singleton] at hm
      rcases hm with ((((((hm | hm) | hm) | hm) | hm) | hm) | hm)
      · exact hty hm
      · simp at hm
      · exact hnm hm
      · simp at hm
      · exact intDigits_no_nl _ _ hm rfl
      · simp at hm
      · exact intDigits_no_nl _ _ hm rfl
    · rw [List.mem_map] at hl
      obtain ⟨c, hcm, hrfl⟩ := hl
      subst hrfl
      obtain ⟨⟨hc1, hc2, hc3⟩, ⟨hd1, hd2, hd3⟩, hdv⟩ := hcols c hcm
      intro hm
      rw [writeColumnLine] at hm
      simp only [List.mem_append, List.mem_singleton] at hm
      rcases hm with (((((((((((((hm | hm) | hm) | hm) | hm) | hm) | hm) | hm) | hm) | hm) |
        hm) | hm) | hm) | hm)
      · revert hm; decide
      · exact hnm hm
      · simp at hm
      · exact (hc3 _ hm).2 rfl
      · simp at hm
      · exact (hd3 _ hm).2 rfl
      · simp at hm
      · revert hm; split <;> decide
      · simp at hm
      · revert hm; split <;> decide
      · simp at hm
      · revert hm; split <;> decide
      · simp at hm
      · cases hdef : c.default_value with
        | none => rw [hdef] at hm; simp at hm
        | some d =>
          rw [hdef] at hm
          rw [hdef] at hdv
          exact hdv.2.2 '\n' hm rfl
  | none =>
    dsimp only [wfInfo] at hmatch
    intro l hl
    rw [writeEntryLines] at hl
    rw [if_neg (by simpa using hmatch)] at hl
    simp only [List.mem_singleton] at hl
    subst hl
    intro hm
    simp only [List.mem_append, List.mem_singleton] at hm
    rcases hm with ((((hm | hm) | hm) | hm) | hm)
    · exact hty hm
    · simp at hm
    · exact hnm hm
    · simp at hm
    · exact intDigits_no_nl _ _ hm rfl

theorem splitLinesAux_foldr (L : List (List Char)) :
    ∀ fuel, (L.foldr (fun l acc => l ++ '\n' :: acc) []).length < fuel →
      (∀ l ∈ L, '\n' ∉ l) →
      splitLinesAux fuel (L.foldr (fun l acc => l ++ '\n' :: acc) []) = L := by
  induction L with
  | nil =>
    intro fuel hf _
    cases fuel with
    | zero => omega
    | succ f => simp [splitLinesAux]
  | cons l L ih =>
    intro fuel hf hnl
    simp only [List.foldr_cons] at hf ⊢
    cases fuel with
    | zero => simp at hf
    | succ f =>
      rw [splitLinesAux]
      rw [if_neg (by simp [List.isEmpty_iff])]
      have htw : (l ++ '\n' :: (L.foldr (fun l acc => l ++ '\n' :: acc) [])).takeWhile
          (fun c => c ≠ '\n') = l := by
        rw [takeWhile_append_of_all _ (fun c hc => by
          simp only [ne_eq, decide_eq_true_eq]
          exact fun h => (hnl l (by simp)) (h ▸ hc))]
        rw [List.takeWhile_cons]
        simp
      rw [htw]
      dsimp only
      rw [List.drop_left, List.drop_one, List.tail_cons]
      rw [ih f (by simp at hf ⊢; omega) (fun x hx => hnl x (by simp [hx]))]

theorem splitLines_writeIndex (idx : SqlIndex) (sha : Option (List Char))
    (hnl : ∀ l ∈ writeIndexLines idx sha, '\n' ∉ l) :
    splitLines (writeIndexToFile idx sha) = writeIndexLines idx sha := by
  unfold splitLines writeIndexToFile
  exact splitLinesAux_foldr (writeIndexLines idx sha) _ (by omega) hnl

/-- C4, amended. Deserializing the serialized store returns the store for
every well-formed store (`wfStore`): names and types nonempty, comma-free,
newline-free and at most 255 characters, types neither the literal `COLUMN`
nor claiming `TABLE` without table structure (and vice versa), lines within
the reader's 1023-character buffer, distinct TABLE names, and defaults
nonempty, newline-free, at most 255 characters — commas in defaults,
including a comma inside a quoted string, are fine, as are zero-column
tables. A type containing a comma (which the column parser itself produces
for `ENUM` types) breaks the round-trip — see the counterexample. -/
theorem claim_C4_roundtrip (s : SqlIndex) (h64 : List Char) (hs : wfStore s)
    (hh : '\n' ∉ h64) :
    readIndexFromFile (writeIndexToFile s (some h64)) = some s := by
  obtain ⟨hwf, hnd⟩ := hs
  have hnl : ∀ l ∈ writeIndexLines s (some h64), '\n' ∉ l := by
    intro l hl
    rw [writeIndexLines] at hl
    simp only [List.mem_append, List.mem_singleton] at hl
    rcases hl with hl | hl
    · subst hl
      intro hm
      rcases List.mem_append.mp hm with hm | hm
      · revert hm; decide
      · exact hh hm
    · rw [List.mem_flatten] at hl
      obtain ⟨blk, hblk, hlblk⟩ := hl
      rw [List.mem_map] at hblk
      obtain ⟨e, hem, hrfl⟩ := hblk
      subst hrfl
      exact writeEntryLines_noNL e (hwf e hem) l hlblk
  unfold readIndexFromFile
  rw [splitLines_writeIndex s (some h64) hnl]
  rw [show writeIndexLines s (some h64) =
      ("SHA256:".toList ++ h64) :: (s.map writeEntryLines).flatten from rfl]
  dsimp only
  rw [show ((("SHA256:".toList ++ h64).take 1023).take 7 == "SHA256:".toList) = true from by
    rw [List.take_take]
    rw [show min 7 1023 = 7 from rfl]
    rw [show (7 : Nat) = ("SHA256:".toList).length from rfl, List.take_left]
    simp]
  simp only [if_true]
  have hblocks := readLoop_blocks s [] [] none hwf (by simpa using hnd)
  simp only [List.append_nil, List.nil_append] at hblocks
  rw [hblocks]
  rw [readLoop]

/-- This claim's theorem has hypotheses; instantiation at a concrete
well-formed store with a zero-column table, a DEFAULT containing a comma
inside a quoted string, and a non-table entry. -/
theorem claim_C4_roundtrip_witness :
    readIndexFromFile (writeIndexToFile rtStore (some (List.replicate 64 'a'))) =
      some rtStore :=
  claim_C4_roundtrip rtStore (List.replicate 64 'a') (by decide) (by decide)

end SqlIndexer
